import Mathlib

/-!
Verification model of the `next-handlebars` template-rendering engine
(`src/next-handlebars.ts`, a fork of express-handlebars).

The TypeScript class `NextHandlebars` is embedded shallowly:
* the mutable instance fields (`_fsCache`, `compiled`, `precompiled`,
  `partialsDir`, `layoutsDir`) become an explicit state record `HbState`
  threaded through every operation;
* the filesystem, the working directory and the opaque Handlebars
  compiler/evaluator become a read-only environment `Env`;
* `async` control flow is linearized; every operation returns its result
  (`Except Err`), the successor state, and the ordered list of effect
  events (`Ev`) it issued — file reads, directory listings, raised
  configuration errors and template-render invocations;
* JS values and objects are modelled by `Val` / `Obj` association lists,
  with JS truthiness (`jsTruthy`) and spread/assignment (`objSet`)
  semantics;
* `String.prototype.trim` is modelled character-exactly by `jsTrim`;
* `path.resolve` / `path.dirname` / `path.join` / `path.extname` /
  `path.relative` are modelled on absolute, `/`-separated paths.
-/

namespace NH

/-! ## JS strings -/

def isWSChar (c : Char) : Bool := c.isWhitespace

/-- Model of `String.prototype.trim`: drop leading and trailing whitespace. -/
def trimChars (l : List Char) : List Char :=
  ((l.dropWhile isWSChar).reverse.dropWhile isWSChar).reverse

def jsTrim (s : String) : String := ⟨trimChars s.data⟩

def strStartsWithSlash (s : String) : Bool :=
  match s.data with
  | '/' :: _ => true
  | _ => false

def strEndsWith (s suffix : String) : Bool :=
  suffix.data.isSuffixOf s.data

def strDropRight (s : String) (n : Nat) : String :=
  ⟨s.data.take (s.data.length - n)⟩

/-! ## Paths

All paths handed to the engine are resolved with `path.resolve` before use;
we model resolved paths as `/`-separated segment lists. -/

def splitChar (c : Char) (l : List Char) : List (List Char) :=
  l.foldr (fun ch acc =>
    match acc with
    | [] => if ch = c then [[], []] else [[ch]]
    | cur :: rest => if ch = c then [] :: cur :: rest else (ch :: cur) :: rest) [[]]

/-- Split a path string into its non-empty segments, dropping `.` segments. -/
def splitSegs (s : String) : List String :=
  ((splitChar '/' s.data).map (fun l => (⟨l⟩ : String))).filter
    (fun seg => seg ≠ "" && seg ≠ ".")

/-- Process `..` segments the way `path.resolve` normalization does. -/
def normSegs (l : List String) : List String :=
  l.foldl (fun acc seg => if seg = ".." then acc.dropLast else acc ++ [seg]) []

def joinSegs (l : List String) : String :=
  "/" ++ String.intercalate "/" l

/-- Model of `path.resolve(p)` against a working directory `cwd`. -/
def pathResolve (cwd : String) (p : String) : String :=
  if strStartsWithSlash p then joinSegs (normSegs (splitSegs p))
  else joinSegs (normSegs (splitSegs cwd ++ splitSegs p))

/-- Model of `path.resolve(a, b)` (two arguments, right argument wins if absolute). -/
def pathResolve2 (cwd : String) (a b : String) : String :=
  if strStartsWithSlash b then pathResolve cwd b
  else if strStartsWithSlash a then joinSegs (normSegs (splitSegs a ++ splitSegs b))
  else pathResolve cwd (a ++ "/" ++ b)

/-- Model of `path.join(a, b)` (trailing separators are dropped; the engine only
feeds joined paths back through `path.resolve`, which ignores them anyway). -/
def pathJoin (a b : String) : String :=
  if strStartsWithSlash a then joinSegs (normSegs (splitSegs a ++ splitSegs b))
  else String.intercalate "/" (normSegs (splitSegs a ++ splitSegs b))

/-- Model of `path.extname`: the suffix of the basename from its last dot,
empty for dotless or dotfile basenames. -/
def pathExtname (s : String) : String :=
  let base := ((splitChar '/' s.data).getLastD []).reverse
  match base.takeWhile (fun c => c ≠ '.') with
  | ext =>
    if ext.length = base.length then ""
    else if ext.length + 1 = base.length then ""
    else String.mk ('.' :: ext.reverse)

/-- Model of `path.relative(from, to)` for resolved paths. -/
def pathRelative (cwd : String) (f t : String) : String :=
  let fs := normSegs (splitSegs (pathResolve cwd f))
  let ts := normSegs (splitSegs (pathResolve cwd t))
  let common := (List.zip fs ts).takeWhile (fun p => p.1 = p.2) |>.length
  String.intercalate "/" (List.replicate (fs.length - common) ".." ++ ts.drop common)

/-! ## JS values and objects -/

inductive Val where
  | null
  | bool (b : Bool)
  | str (s : String)
  | obj (fields : List (String × Val))
  | arr (elems : List Val)

abbrev Obj := List (String × Val)

def jsTruthy : Val → Bool
  | .null => false
  | .bool b => b
  | .str s => s ≠ ""
  | .obj _ => true
  | .arr _ => true

def valToStr : Val → String
  | .str s => s
  | _ => ""

/-- First-match association-list lookup (JS property read). -/
def lookupA {α : Type} : List (String × α) → String → Option α
  | [], _ => none
  | (k, v) :: rest, key => if k = key then some v else lookupA rest key

/-- JS property assignment: overwrite in place, else append. -/
def listSet {α : Type} : List (String × α) → String → α → List (String × α)
  | [], k, v => [(k, v)]
  | (k', v') :: rest, k, v =>
    if k' = k then (k, v) :: rest else (k', v') :: listSet rest k v

/-- JS `delete o[k]` (keys are unique in JS objects, so removing every
occurrence is equivalent). -/
def listErase {α : Type} (m : List (String × α)) (k : String) : List (String × α) :=
  m.filter (fun e => !(e.1 = k))

/-- JS object spread `{...a, ...b}`. -/
def listMerge {α : Type} (a b : List (String × α)) : List (String × α) :=
  b.foldl (fun acc e => listSet acc e.1 e.2) a

def objGet (o : Obj) (k : String) : Option Val := lookupA o k

def objHasKey (o : Obj) (k : String) : Bool := (lookupA o k).isSome

def objSet (o : Obj) (k : String) (v : Val) : Obj := listSet o k v

/-- Read a field as an object for spreading (`{...x}` of a non-object spreads
nothing observable). -/
def objOfVal : Option Val → Obj
  | some (.obj o) => o
  | _ => []

/-! ## Engine data model -/

/-- A `_fsCache` entry: a settled file read or directory listing. -/
inductive FsVal where
  | file (content : String)
  | dir (listing : List String)
  deriving DecidableEq

/-- Errors surfaced by the engine. -/
inductive Err where
  | configError (msg : String)
  | readError (path : String)
  | globError (path : String)
  | compileError (src : String)
  deriving DecidableEq

deriving instance DecidableEq for Except

/-- Effect events, in issue order: filesystem reads, directory listings
(`glob`), synchronously raised errors, and entries into `render`
(recording the template path, the data context and the `layout` option). -/
inductive Ev where
  | readFile (path : String)
  | globDir (path : String)
  | raise (e : Err)
  | renderCall (path : String) (ctx : Obj) (layout : Option Val)

/-- One entry of the `partialsDir` configuration: a bare path string or a
config record `{dir?, templates?, namespace?, rename?}`. -/
inductive PartialsDirVal where
  | str (dir : String)
  | conf (dir : Option String) (templates : Option (List (String × String)))
      (nsp : Option String) (rename : Option (String → Option String → String))

/-- `partialsDir` is a single entry or an array of entries. -/
inductive PartialsSetting where
  | single (d : PartialsDirVal)
  | many (ds : List PartialsDirVal)

/-- Immutable per-instance configuration (constructor-normalized). -/
structure Config where
  extname : String := ".handlebars"
  encoding : String := "utf8"
  defaultLayout : Val := .str "main"
  helpers : Obj := []
  partialsDirCfg : Option PartialsSetting := none
  layoutsDirCfg : Option String := none

/-- The mutable instance state: the three caches plus the two directory
fields `renderView` may overwrite. -/
structure HbState where
  fsCache : List (String × FsVal) := []
  compiled : List (String × String) := []
  precompiled : List (String × String) := []
  partialsDir : Option PartialsSetting := none
  layoutsDir : Option String := none

/-- The external world: working directory, file contents by resolved path,
`glob` listings by resolved directory path, and the opaque Handlebars
compile / evaluate capability. -/
structure Env where
  cwd : String := "/"
  files : List (String × String) := []
  globs : List (String × List String) := []
  compileOk : String → Bool := fun _ => true
  hbEval : String → Obj → String := fun _ _ => ""

/-- `PartialTemplateOptions`: the `{cache, precompiled, encoding}` options
record threaded through template loading. -/
structure TOpts where
  cache : Bool := false
  precompiled : Bool := false
  encoding : Option String := none

/-- The render options object built by `renderView` / accepted by `render`. -/
structure RenderOpts where
  cache : Bool := false
  encoding : Option String := none
  view : Option String := none
  layout : Option Val := none
  data : Option Val := none
  helpers : Option Obj := none
  partials : Option (List (String × String)) := none
  runtimeOptions : Option Val := none

/-- `options.encoding || this.encoding` (empty string is falsy). -/
def effEncoding (o : Option String) (d : String) : String :=
  match o with
  | some s => if s = "" then d else s
  | none => d

/-! ## Protected hooks -/

/-- `_compileTemplate`: trim, then hand to the opaque Handlebars compiler,
which may throw on malformed input.  A compiled artifact is represented by
its trimmed source text. -/
def _compileTemplate (env : Env) (template : String) : Except Err String :=
  if env.compileOk (jsTrim template) then .ok (jsTrim template)
  else .error (.compileError (jsTrim template))

/-- `_precompileTemplate`: same shape as `_compileTemplate`. -/
def _precompileTemplate (env : Env) (template : String) : Except Err String :=
  if env.compileOk (jsTrim template) then .ok (jsTrim template)
  else .error (.compileError (jsTrim template))

/-- `_renderTemplate`: invoke the compiled template and trim the output. -/
def _renderTemplate (env : Env) (template : String) (context : Obj) : String :=
  jsTrim (env.hbEval template context)

/-! ## File cache layer -/

/-- `_getFile(filePath, {cache, encoding})`.  The cache entry is stored
optimistically on every miss (also when `options.cache` is false) and
removed again if the read fails. -/
def _getFile (env : Env) (st : HbState) (filePath : String) (opts : TOpts) :
    Except Err String × HbState × List Ev :=
  let fp := pathResolve env.cwd filePath
  let hit : Option String :=
    if opts.cache then
      match lookupA st.fsCache fp with
      | some (.file s) => some s
      | _ => none
    else none
  match hit with
  | some s => (.ok s, st, [])
  | none =>
    match lookupA env.files fp with
    | some content =>
      (.ok content, { st with fsCache := listSet st.fsCache fp (.file content) },
        [.readFile fp])
    | none =>
      (.error (.readError fp), { st with fsCache := listErase st.fsCache fp },
        [.readFile fp])

/-- `_getDir(dirPath, {cache})`: glob `**/*<extname>`, with the same
optimistic-store / evict-on-failure cache protocol as `_getFile`. -/
def _getDir (env : Env) (st : HbState) (dirPath : String) (opts : TOpts) :
    Except Err (List String) × HbState × List Ev :=
  let dp := pathResolve env.cwd dirPath
  let hit : Option (List String) :=
    if opts.cache then
      match lookupA st.fsCache dp with
      | some (.dir l) => some l
      | _ => none
    else none
  match hit with
  | some l => (.ok l, st, [])
  | none =>
    match lookupA env.globs dp with
    | some l =>
      (.ok l, { st with fsCache := listSet st.fsCache dp (.dir l) }, [.globDir dp])
    | none =>
      (.error (.globError dp), { st with fsCache := listErase st.fsCache dp },
        [.globDir dp])

/-! ## Template store -/

/-- The cache-miss branch of `getTemplate`: read the file, compile or
precompile it, store the artifact under `fp` in the selected cache
(evicting it instead on failure). -/
def getTemplateMiss (env : Env) (st : HbState) (filePath fp : String)
    (opts : TOpts) : Except Err String × HbState × List Ev :=
  match _getFile env st filePath { opts with precompiled := false } with
  | (.ok file, st₁, evs) =>
    match (if opts.precompiled then _precompileTemplate env file
           else _compileTemplate env file) with
    | .ok t =>
      (.ok t,
        (if opts.precompiled then { st₁ with precompiled := listSet st₁.precompiled fp t }
         else { st₁ with compiled := listSet st₁.compiled fp t }), evs)
    | .error e =>
      (.error e,
        (if opts.precompiled then { st₁ with precompiled := listErase st₁.precompiled fp }
         else { st₁ with compiled := listErase st₁.compiled fp }), evs)
  | (.error e, st₁, evs) =>
    (.error e,
      (if opts.precompiled then { st₁ with precompiled := listErase st₁.precompiled fp }
       else { st₁ with compiled := listErase st₁.compiled fp }), evs)

/-- `getTemplate(filePath, {cache, precompiled, encoding})`. -/
def getTemplate (env : Env) (st : HbState) (filePath : String) (opts : TOpts) :
    Except Err String × HbState × List Ev :=
  let fp := pathResolve env.cwd filePath
  let hit : Option String :=
    if opts.cache then
      lookupA (if opts.precompiled then st.precompiled else st.compiled) fp
    else none
  match hit with
  | some t => (.ok t, st, [])
  | none => getTemplateMiss env st filePath fp opts

/-- The per-file loop of `getTemplates`: load every listed file and pair it
with its relative path (first error in listing order wins; every load still
runs, as with `Promise.all`). -/
def getEachTemplate (env : Env) :
    HbState → String → List String → TOpts →
    Except Err (List (String × String)) × HbState × List Ev
  | st, _, [], _ => (.ok [], st, [])
  | st, dirPath, f :: rest, opts =>
    let (r, st₁, evs₁) := getTemplate env st (pathJoin dirPath f) opts
    let (rr, st₂, evs₂) := getEachTemplate env st₁ dirPath rest opts
    match r, rr with
    | .ok t, .ok l => (.ok ((f, t) :: l), st₂, evs₁ ++ evs₂)
    | .error e, _ => (.error e, st₂, evs₁ ++ evs₂)
    | _, .error e => (.error e, st₂, evs₁ ++ evs₂)

/-- `getTemplates(dirPath, options)`: list the directory, then load each
file, keyed by its relative path. -/
def getTemplates (env : Env) (st : HbState) (dirPath : String) (opts : TOpts) :
    Except Err (List (String × String)) × HbState × List Ev :=
  match _getDir env st dirPath opts with
  | (.error e, st₁, evs) => (.error e, st₁, evs)
  | (.ok filePaths, st₁, evs) =>
    let (r, st₂, evs₂) := getEachTemplate env st₁ dirPath filePaths opts
    (r, st₂, evs ++ evs₂)

/-! ## Partial resolver -/

def partialsDirMsg : String := "A partials dir must be a string or config object"

/-- `_getTemplateName(filePath, namespace)`: strip the configured extension
suffix, then prefix a truthy namespace. -/
def _getTemplateName (cfg : Config) (filePath : String) (nsp : Option String) : String :=
  let name := if strEndsWith filePath cfg.extname
    then strDropRight filePath cfg.extname.length else filePath
  match nsp with
  | some s => if s = "" then name else s ++ "/" ++ name
  | none => name

/-- The invalid-descriptor test `!dirPath && !dirTemplates` (a missing or
empty path with no pre-supplied templates). -/
def isInvalidDir : PartialsDirVal → Bool
  | .str s => s = ""
  | .conf dir tms _ _ => (dir.getD "") = "" && tms.isNone

/-- Outcome of starting one partials-directory descriptor. -/
inductive DirOut where
  | bad
  | failed (e : Err)
  | good (templates : List (String × String)) (nsp : Option String)
      (rename : Option (String → Option String → String))

def isBadDir : DirOut → Bool
  | .bad => true
  | _ => false

def dirFailure : DirOut → Option Err
  | .failed e => some e
  | _ => none

/-- Process one descriptor of the `Promise.all` in `getPartials`: throw the
configuration error for an invalid descriptor (before any I/O of its own),
use pre-supplied templates directly, or load the directory. -/
def processOneDir (env : Env) (st : HbState) (d : PartialsDirVal)
    (opts : TOpts) : DirOut × HbState × List Ev :=
  match d with
  | .str s =>
    if s = "" then (.bad, st, [.raise (.configError partialsDirMsg)])
    else
      match getTemplates env st s opts with
      | (.ok t, st₁, evs) => (.good t none none, st₁, evs)
      | (.error e, st₁, evs) => (.failed e, st₁, evs)
  | .conf dir tms nsp ren =>
    if (dir.getD "") = "" && tms.isNone then
      (.bad, st, [.raise (.configError partialsDirMsg)])
    else
      match tms with
      | some t => (.good t nsp ren, st, [])
      | none =>
        match getTemplates env st (dir.getD "") opts with
        | (.ok t, st₁, evs) => (.good t nsp ren, st₁, evs)
        | (.error e, st₁, evs) => (.failed e, st₁, evs)

/-- All descriptors are started in array order (the `map` over an array of
`async` closures runs each to its first suspension in order, and none is
stopped by the failure of another). -/
def processDirs (env : Env) :
    HbState → List PartialsDirVal → TOpts → List DirOut × HbState × List Ev
  | st, [], _ => ([], st, [])
  | st, d :: rest, opts =>
    let (o, st₁, evs₁) := processOneDir env st d opts
    let (os, st₂, evs₂) := processDirs env st₁ rest opts
    (o :: os, st₂, evs₁ ++ evs₂)

/-- The merge loop of `getPartials`: canonical name by the per-descriptor
rename function when present, else `_getTemplateName`; assignment into the
shared mapping, so later entries overwrite earlier ones. -/
def mergeOneDir (cfg : Config) (acc : List (String × String)) (o : DirOut) :
    List (String × String) :=
  match o with
  | .good tms nsp ren =>
    let nameFn := match ren with
      | some f => f
      | none => fun fp n => _getTemplateName cfg fp n
    tms.foldl (fun a e => listSet a (nameFn e.1 nsp) e.2) acc
  | _ => acc

/-- `Array.isArray(this.partialsDir) ? this.partialsDir : [this.partialsDir]`. -/
def settingDirs : PartialsSetting → List PartialsDirVal
  | .single d => [d]
  | .many l => l

/-- `getPartials(options)`. -/
def getPartials (cfg : Config) (env : Env) (st : HbState) (opts : TOpts) :
    Except Err (List (String × String)) × HbState × List Ev :=
  match st.partialsDir with
  | none => (.ok [], st, [])
  | some setting =>
    let (outs, st₁, evs) := processDirs env st (settingDirs setting) opts
    if outs.any isBadDir then (.error (.configError partialsDirMsg), st₁, evs)
    else
      match outs.findSome? dirFailure with
      | some e => (.error e, st₁, evs)
      | none => (.ok (outs.foldl (mergeOneDir cfg) []), st₁, evs)

/-! ## View renderer -/

/-- `render(filePath, context, options)`: load (and cache) the compiled
template, resolve partials (those supplied in the options, else
`getPartials`), invoke the template artifact on the context and trim the
result.  The entry is logged as a `renderCall` event. -/
def render (cfg : Config) (env : Env) (st : HbState) (filePath : String)
    (context : Obj) (opts : RenderOpts) : Except Err String × HbState × List Ev :=
  let entry := Ev.renderCall filePath context opts.layout
  let encoding := effEncoding opts.encoding cfg.encoding
  match getTemplate env st filePath { cache := opts.cache, encoding := some encoding } with
  | (.error e, st₁, evs₁) => (.error e, st₁, entry :: evs₁)
  | (.ok tmpl, st₁, evs₁) =>
    let (pr, st₂, evs₂) : Except Err (List (String × String)) × HbState × List Ev :=
      match opts.partials with
      | some p => (.ok p, st₁, ([] : List Ev))
      | none => getPartials cfg env st₁ { cache := opts.cache, encoding := some encoding }
    match pr with
    | .error e => (.error e, st₂, entry :: (evs₁ ++ evs₂))
    | .ok _ => (.ok (_renderTemplate env tmpl context), st₂, entry :: (evs₁ ++ evs₂))

/-! ## View-path and layout-path resolution -/

/-- The chain of parent directories visited by the `while (dir !== lastDir)`
loop of `_resolveViewsPath`, as segment lists: the directory of the file
first, then each ancestor up to and including the root. -/
def chainsRev : List String → List (List String)
  | [] => []
  | _ :: rest => rest.reverse :: chainsRev rest

def ancestorChain (segs : List String) : List (List String) :=
  chainsRev segs.reverse

/-- `_resolveViewsPath(views, file)`: a non-array `views` is returned as-is;
for an array, walk upward from the file through its parent directories and
return the first original entry whose resolved path matches. -/
def _resolveViewsPath (cwd : String) (views : Option Val) (file : String) :
    Option Val :=
  match views with
  | some (.arr vs) =>
    let absoluteViews := vs.map (fun v => pathResolve cwd (valToStr v))
    let chain := ancestorChain (normSegs (splitSegs (pathResolve cwd file)))
    (chain.findSome? fun dirSegs =>
      ((vs.zip absoluteViews).find? (fun p => p.2 = joinSegs dirSegs)).map (·.1))
  | v => v

/-- `_resolveLayoutPath(layoutPath)`: `null` for a falsy layout; otherwise
append the configured extension when the name has none and resolve against
`this.layoutsDir || ''`. -/
def _resolveLayoutPath (cfg : Config) (env : Env) (st : HbState)
    (layout : Option Val) : Option String :=
  match layout with
  | none => none
  | some v =>
    if jsTruthy v then
      let s := valToStr v
      let s := if pathExtname s = "" then s ++ cfg.extname else s
      some (pathResolve2 env.cwd (st.layoutsDir.getD "") s)
    else none

/-! ## renderView -/

/-- `options.settings && options.settings.views`. -/
def settingsViews (options : Obj) : Option Val :=
  match objGet options "settings" with
  | some (.obj s) => if jsTruthy (.obj s) then objGet s "views" else none
  | some v => if jsTruthy v then none else none
  | none => none

def settingTruthy : PartialsSetting → Bool
  | .single (.str s) => s ≠ ""
  | _ => true

/-- The views-root step of `renderView`: derive the view name and write the
instance `partialsDir`/`layoutsDir` fields when a views root resolved. -/
def setupViewsState (cfg : Config) (env : Env) (st : HbState) (viewPath : String)
    (options : Obj) : Option String × HbState :=
  match _resolveViewsPath env.cwd (settingsViews options) viewPath with
  | some v =>
    if jsTruthy v then
      let vp := valToStr v
      (some (_getTemplateName cfg (pathRelative env.cwd vp viewPath) none),
        { st with
          partialsDir := some (match cfg.partialsDirCfg with
            | some pd => if settingTruthy pd then pd
                else .single (.str (pathJoin vp "partials/"))
            | none => .single (.str (pathJoin vp "partials/")))
          layoutsDir := some (match cfg.layoutsDirCfg with
            | some s => if s = "" then pathJoin vp "layouts/" else s
            | none => pathJoin vp "layouts/") })
    else (none, st)
  | none => (none, st)

/-- `options.encoding || this.encoding` for the `renderView` options object. -/
def setupEncoding (cfg : Config) (options : Obj) : String :=
  effEncoding (match objGet options "encoding" with
    | some (.str s) => some s
    | _ => none) cfg.encoding

/-- The head of `renderView` up to and including the construction of the
`renderOptions` record: views-root resolution (with its write to the
instance fields), helper merging, partials resolution and the
layout-option default. -/
def renderViewSetup (cfg : Config) (env : Env) (st : HbState) (viewPath : String)
    (options : Obj) : Except Err RenderOpts × HbState × List Ev :=
  let (viewName, st₁) := setupViewsState cfg env st viewPath options
  let encoding := setupEncoding cfg options
  let helpers := listMerge cfg.helpers (objOfVal (objGet options "helpers"))
  let cacheFlag := jsTruthy ((objGet options "cache").getD .null)
  match getPartials cfg env st₁ { cache := cacheFlag, encoding := some encoding } with
  | (.error e, st₂, evs) => (.error e, st₂, evs)
  | (.ok basePartials, st₂, evs) =>
    let optPartials : List (String × String) :=
      (objOfVal (objGet options "partials")).map (fun e => (e.1, valToStr e.2))
    let partials := listMerge basePartials optPartials
    (.ok
      { cache := cacheFlag
        encoding := some encoding
        view := viewName
        layout := if objHasKey options "layout" then objGet options "layout"
          else some cfg.defaultLayout
        data := objGet options "data"
        helpers := some helpers
        partials := some partials
        runtimeOptions := objGet options "runtimeOptions" }, st₂, evs)

/-- `renderView(viewPath, options)` (promise form; the callback form runs
the same pipeline).  The options object itself is the data context; after
rendering the main view, a truthy resolved layout is rendered with the
context extended by `body` and with the layout option cleared. -/
def renderView (cfg : Config) (env : Env) (st : HbState) (viewPath : String)
    (options : Obj) : Except Err String × HbState × List Ev :=
  match renderViewSetup cfg env st viewPath options with
  | (.error e, st₁, evs₁) => (.error e, st₁, evs₁)
  | (.ok ro, st₁, evs₁) =>
    match render cfg env st₁ viewPath options ro with
    | (.error e, st₂, evs₂) => (.error e, st₂, evs₁ ++ evs₂)
    | (.ok html, st₂, evs₂) =>
      match _resolveLayoutPath cfg env st₂ ro.layout with
      | some lp =>
        let (r₂, st₃, evs₃) :=
          render cfg env st₂ lp (objSet options "body" (.str html))
            { ro with layout := none }
        (r₂, st₃, evs₁ ++ evs₂ ++ evs₃)
      | none => (.ok html, st₂, evs₁ ++ evs₂)

/-! ## Cache invalidator -/

/-- The selector argument of `resetCache`. -/
inductive CacheSelector where
  | all
  | one (p : String)
  | list (ps : List String)
  | pred (f : String → Bool)

/-- `resetCache(filePathsOrFilter?)`: compute the list of file-cache keys to
remove, then delete each; only `_fsCache` is touched. -/
def resetCache (st : HbState) (sel : CacheSelector) : HbState :=
  let filePaths : List String :=
    match sel with
    | .all => st.fsCache.map (·.1)
    | .one p => [p]
    | .pred f => (st.fsCache.map (·.1)).filter f
    | .list ps => ps
  { st with fsCache := filePaths.foldl (fun c p => listErase c p) st.fsCache }

/-! ## Event projections -/

/-- The `render` invocations recorded in an event list: template path and
data context. -/
def renderCallCtxs (evs : List Ev) : List (String × Obj) :=
  evs.filterMap fun e =>
    match e with
    | .renderCall p c _ => some (p, c)
    | _ => none

/-- The `layout` option carried by each recorded `render` invocation. -/
def renderCallLayouts (evs : List Ev) : List (Option Val) :=
  evs.filterMap fun e =>
    match e with
    | .renderCall _ _ l => some l
    | _ => none

/-- The filesystem events (reads and directory listings) of an event list. -/
def ioEvents (evs : List Ev) : List Ev :=
  evs.filter fun e =>
    match e with
    | .readFile _ => true
    | .globDir _ => true
    | _ => false

/-! ## Association-list lemmas -/

theorem lookupA_listSet_self {α : Type} (m : List (String × α)) (k : String) (v : α) :
    lookupA (listSet m k v) k = some v := by
  induction m with
  | nil => simp [listSet, lookupA]
  | cons e rest ih =>
    obtain ⟨a, b⟩ := e
    by_cases h : a = k
    · simp [listSet, h, lookupA]
    · simpa [listSet, h, lookupA] using ih

theorem lookupA_listSet_ne {α : Type} (m : List (String × α)) (k key : String) (v : α)
    (h : key ≠ k) : lookupA (listSet m k v) key = lookupA m key := by
  induction m with
  | nil => simp [listSet, lookupA, Ne.symm h]
  | cons e rest ih =>
    obtain ⟨a, b⟩ := e
    by_cases h1 : a = k
    · simp [listSet, h1, lookupA, Ne.symm h]
    · simp [listSet, h1, lookupA, ih]

theorem lookupA_listErase_self {α : Type} (m : List (String × α)) (k : String) :
    lookupA (listErase m k) k = none := by
  induction m with
  | nil => simp [listErase, lookupA]
  | cons e rest ih =>
    obtain ⟨a, b⟩ := e
    by_cases h : a = k
    · simpa [listErase, List.filter_cons, h] using ih
    · simpa [listErase, List.filter_cons, h, lookupA] using ih

theorem lookupA_listErase_ne {α : Type} (m : List (String × α)) (k key : String)
    (h : key ≠ k) : lookupA (listErase m k) key = lookupA m key := by
  induction m with
  | nil => simp [listErase, lookupA]
  | cons e rest ih =>
    obtain ⟨a, b⟩ := e
    by_cases h1 : a = k
    · simpa [listErase, List.filter_cons, h1, lookupA, Ne.symm h] using ih
    · simp only [listErase, List.filter_cons] at ih ⊢
      simp [h1, lookupA, ih]

theorem listErase_of_lookupA_none {α : Type} (m : List (String × α)) (k : String)
    (h : lookupA m k = none) : listErase m k = m := by
  induction m with
  | nil => simp [listErase]
  | cons e rest ih =>
    obtain ⟨a, b⟩ := e
    rw [lookupA] at h
    by_cases h1 : a = k
    · simp [h1] at h
    · rw [if_neg h1] at h
      have h2 := ih h
      simp only [listErase] at h2 ⊢
      simp [List.filter_cons, h1, h2]

theorem foldl_listErase_eq_filter {α : Type} (ps : List String)
    (m : List (String × α)) :
    ps.foldl (fun c p => listErase c p) m = m.filter (fun e => !(decide (e.1 ∈ ps))) := by
  induction ps generalizing m with
  | nil => simp
  | cons p ps ih =>
    rw [List.foldl_cons, ih, listErase, List.filter_filter]
    apply List.filter_congr
    intro e _
    by_cases h1 : e.1 = p <;> by_cases h2 : e.1 ∈ ps <;> simp [h1, h2]

/-- Claim C9 helper: erasing every present key empties the cache. -/
theorem filter_keys_self_nil {α : Type} (m : List (String × α)) :
    m.filter (fun e => !(decide (e.1 ∈ m.map (·.1)))) = [] := by
  rw [List.filter_eq_nil_iff]
  intro e he
  have h2 : e.1 ∈ m.map (·.1) := List.mem_map.mpr ⟨e, he, rfl⟩
  simp [h2]

/-! ## Claim C9 — `resetCache` -/

/-- Claim C9: `resetCache` with no selector clears every file-cache entry;
a string selector removes exactly that path; a list selector removes
exactly the listed paths; a predicate selector removes exactly the cached
paths satisfying it; removing an absent key is a no-op; and in every case
the compiled and precompiled template caches are untouched. -/
theorem c9_resetCache_contract :
    (∀ st : HbState, (resetCache st .all).fsCache = []) ∧
    (∀ (st : HbState) (p : String),
      (resetCache st (.one p)).fsCache = listErase st.fsCache p) ∧
    (∀ (st : HbState) (ps : List String),
      (resetCache st (.list ps)).fsCache
        = st.fsCache.filter (fun e => !(decide (e.1 ∈ ps)))) ∧
    (∀ (st : HbState) (f : String → Bool),
      (resetCache st (.pred f)).fsCache = st.fsCache.filter (fun e => !(f e.1))) ∧
    (∀ (st : HbState) (p : String),
      lookupA st.fsCache p = none → resetCache st (.one p) = st) ∧
    (∀ (st : HbState) (sel : CacheSelector),
      (resetCache st sel).compiled = st.compiled ∧
      (resetCache st sel).precompiled = st.precompiled ∧
      (resetCache st sel).partialsDir = st.partialsDir ∧
      (resetCache st sel).layoutsDir = st.layoutsDir) := by
  refine ⟨?_, ?_, ?_, ?_, ?_, ?_⟩
  · intro st
    simp [resetCache, foldl_listErase_eq_filter, filter_keys_self_nil]
  · intro st p
    simp [resetCache]
  · intro st ps
    simp [resetCache, foldl_listErase_eq_filter]
  · intro st f
    simp only [resetCache, foldl_listErase_eq_filter]
    apply List.filter_congr
    intro e he
    have h2 : e.1 ∈ st.fsCache.map (·.1) := List.mem_map.mpr ⟨e, he, rfl⟩
    by_cases hf : f e.1 <;> simp [List.mem_filter, h2, hf]
  · intro st p h
    simp [resetCache, listErase_of_lookupA_none _ _ h]
  · intro st sel
    refine ⟨rfl, rfl, rfl, rfl⟩

/-- Witness for C9 at a concrete state: removing the absent key `/b`
is a no-op. -/
theorem c9_witness :
    lookupA ({ fsCache := [("/a", FsVal.file "1")] } : HbState).fsCache "/b" = none ∧
    resetCache { fsCache := [("/a", FsVal.file "1")] } (.one "/b")
      = ({ fsCache := [("/a", FsVal.file "1")] } : HbState) :=
  ⟨rfl, c9_resetCache_contract.2.2.2.2.1 { fsCache := [("/a", FsVal.file "1")] } "/b" rfl⟩

/-! ## Claim C1 — cache-disabled operations -/

theorem getFile_nocache_events (env : Env) (st : HbState) (p : String)
    (enc : Option String) :
    (_getFile env st p { cache := false, encoding := enc }).2.2
      = [.readFile (pathResolve env.cwd p)] := by
  simp only [_getFile]
  cases h : lookupA env.files (pathResolve env.cwd p) <;> simp [h]

theorem getFile_nocache_result_indep (env : Env) (st st' : HbState) (p : String)
    (enc : Option String) :
    (_getFile env st p { cache := false, encoding := enc }).1
      = (_getFile env st' p { cache := false, encoding := enc }).1 := by
  simp only [_getFile]
  cases h : lookupA env.files (pathResolve env.cwd p) <;> simp [h]

theorem getFile_nocache_stores (env : Env) (st : HbState) (p : String)
    (enc : Option String) (c : String)
    (h : lookupA env.files (pathResolve env.cwd p) = some c) :
    lookupA ((_getFile env st p { cache := false, encoding := enc }).2.1.fsCache)
        (pathResolve env.cwd p) = some (.file c) := by
  simp [_getFile, h, lookupA_listSet_self]

theorem getDir_nocache_events (env : Env) (st : HbState) (p : String) :
    (_getDir env st p { cache := false }).2.2
      = [.globDir (pathResolve env.cwd p)] := by
  simp only [_getDir]
  cases h : lookupA env.globs (pathResolve env.cwd p) <;> simp [h]

theorem getDir_nocache_result_indep (env : Env) (st st' : HbState) (p : String) :
    (_getDir env st p { cache := false }).1
      = (_getDir env st' p { cache := false }).1 := by
  simp only [_getDir]
  cases h : lookupA env.globs (pathResolve env.cwd p) <;> simp [h]

theorem getDir_nocache_stores (env : Env) (st : HbState) (p : String)
    (l : List String) (h : lookupA env.globs (pathResolve env.cwd p) = some l) :
    lookupA ((_getDir env st p { cache := false }).2.1.fsCache)
        (pathResolve env.cwd p) = some (.dir l) := by
  simp [_getDir, h, lookupA_listSet_self]

theorem getTemplate_nocache_events (env : Env) (st : HbState) (p : String)
    (pc : Bool) (enc : Option String) :
    (getTemplate env st p { cache := false, precompiled := pc, encoding := enc }).2.2
      = [.readFile (pathResolve env.cwd p)] := by
  simp only [getTemplate, getTemplateMiss]
  rcases hf : _getFile env st p { cache := false, precompiled := false, encoding := enc }
    with ⟨r, st₁, evs⟩
  have hev : evs = [.readFile (pathResolve env.cwd p)] := by
    have h1 := getFile_nocache_events env st p enc
    rw [hf] at h1
    exact h1
  cases r with
  | ok file =>
    simp only [hf]
    cases hc : (if pc then _precompileTemplate env file else _compileTemplate env file)
      <;> simp [hc, hev]
  | error e => simp [hf, hev]

theorem getTemplate_nocache_result_indep (env : Env) (st st' : HbState) (p : String)
    (pc : Bool) (enc : Option String) :
    (getTemplate env st p { cache := false, precompiled := pc, encoding := enc }).1
      = (getTemplate env st' p { cache := false, precompiled := pc, encoding := enc }).1 := by
  simp only [getTemplate, getTemplateMiss]
  rcases hf : _getFile env st p { cache := false, precompiled := false, encoding := enc }
    with ⟨r, st₁, evs⟩
  rcases hf' : _getFile env st' p { cache := false, precompiled := false, encoding := enc }
    with ⟨r', st₁', evs'⟩
  have hr : r = r' := by
    have h1 := getFile_nocache_result_indep env st st' p enc
    rw [hf, hf'] at h1
    exact h1
  subst hr
  cases r with
  | ok file =>
    simp only [hf, hf']
    cases hc : (if pc then _precompileTemplate env file else _compileTemplate env file)
      <;> simp [hc]
  | error e => simp [hf, hf']

theorem getTemplate_nocache_stores (env : Env) (st : HbState) (p : String)
    (enc : Option String) (c : String)
    (h : lookupA env.files (pathResolve env.cwd p) = some c)
    (hc : env.compileOk (jsTrim c) = true) :
    lookupA ((getTemplate env st p ⟨false, false, enc⟩).2.1.compiled)
        (pathResolve env.cwd p) = some (jsTrim c) := by
  simp [getTemplate, getTemplateMiss, _getFile, h, _compileTemplate, hc, lookupA_listSet_self]

/-- Counterexample to claim C1 as stated: a `_getFile` call with the cache
option absent starts from an empty file cache and leaves a cache that
contains the read file, so the file cache does not hold the same entries
after the call as before it. -/
theorem c1_counterexample :
    ¬ ((_getFile { files := [("/a.handlebars", "x")] } {} "/a.handlebars" {}).2.1.fsCache
        = ({} : HbState).fsCache) := by
  decide

/-- Claim C1 as amended: with the cache option false or absent, `_getFile`,
`_getDir` and `getTemplate` always perform the fresh filesystem
read/listing (exactly one I/O event is issued and the outcome is
independent of the prior cache contents, so no cached entry is ever
served) — but the fresh result IS stored: on success the file cache ends
up holding the fresh file/listing entry and the compiled cache the fresh
compiled artifact for that path. -/
theorem c1_nocache_fresh_but_stored :
    (∀ (env : Env) (st st' : HbState) (p : String) (enc : Option String),
      (_getFile env st p { cache := false, encoding := enc }).2.2
          = [.readFile (pathResolve env.cwd p)] ∧
      (_getFile env st p { cache := false, encoding := enc }).1
          = (_getFile env st' p { cache := false, encoding := enc }).1) ∧
    (∀ (env : Env) (st st' : HbState) (p : String),
      (_getDir env st p { cache := false }).2.2
          = [.globDir (pathResolve env.cwd p)] ∧
      (_getDir env st p { cache := false }).1
          = (_getDir env st' p { cache := false }).1) ∧
    (∀ (env : Env) (st st' : HbState) (p : String) (pc : Bool) (enc : Option String),
      (getTemplate env st p { cache := false, precompiled := pc, encoding := enc }).2.2
          = [.readFile (pathResolve env.cwd p)] ∧
      (getTemplate env st p { cache := false, precompiled := pc, encoding := enc }).1
          = (getTemplate env st' p ⟨false, pc, enc⟩).1) ∧
    (∀ (env : Env) (st : HbState) (p : String) (enc : Option String) (c : String),
      lookupA env.files (pathResolve env.cwd p) = some c →
        lookupA ((_getFile env st p { cache := false, encoding := enc }).2.1.fsCache)
            (pathResolve env.cwd p) = some (.file c)) ∧
    (∀ (env : Env) (st : HbState) (p : String) (l : List String),
      lookupA env.globs (pathResolve env.cwd p) = some l →
        lookupA ((_getDir env st p { cache := false }).2.1.fsCache)
            (pathResolve env.cwd p) = some (.dir l)) ∧
    (∀ (env : Env) (st : HbState) (p : String) (enc : Option String) (c : String),
      lookupA env.files (pathResolve env.cwd p) = some c →
        env.compileOk (jsTrim c) = true →
          lookupA ((getTemplate env st p ⟨false, false, enc⟩).2.1.compiled)
            (pathResolve env.cwd p) = some (jsTrim c)) := by
  refine ⟨?_, ?_, ?_, ?_, ?_, ?_⟩
  · exact fun env st st' p enc =>
      ⟨getFile_nocache_events env st p enc, getFile_nocache_result_indep env st st' p enc⟩
  · exact fun env st st' p =>
      ⟨getDir_nocache_events env st p, getDir_nocache_result_indep env st st' p⟩
  · exact fun env st st' p pc enc =>
      ⟨getTemplate_nocache_events env st p pc enc,
        getTemplate_nocache_result_indep env st st' p pc enc⟩
  · exact fun env st p enc c h => getFile_nocache_stores env st p enc c h
  · exact fun env st p l h => getDir_nocache_stores env st p l h
  · exact fun env st p enc c h hc => getTemplate_nocache_stores env st p enc c h hc

/-! ## Claim C5 — failure evicts the cache entry -/

theorem getFile_error_evicts (env : Env) (st : HbState) (p : String) (o : TOpts)
    (e : Err) (h : (_getFile env st p o).1 = .error e) :
    (_getFile env st p o).2.1.fsCache = listErase st.fsCache (pathResolve env.cwd p) := by
  by_cases hc : o.cache <;>
    cases he : lookupA env.files (pathResolve env.cwd p) <;>
      [skip; skip; skip; skip] <;>
    first
      | (cases hl : lookupA st.fsCache (pathResolve env.cwd p) <;>
          [simp_all [_getFile]; skip] <;>
         rename_i v <;> cases v <;> simp_all [_getFile])
      | simp_all [_getFile]

theorem getDir_error_evicts (env : Env) (st : HbState) (p : String) (o : TOpts)
    (e : Err) (h : (_getDir env st p o).1 = .error e) :
    (_getDir env st p o).2.1.fsCache = listErase st.fsCache (pathResolve env.cwd p) := by
  by_cases hc : o.cache <;>
    cases he : lookupA env.globs (pathResolve env.cwd p) <;>
      [skip; skip; skip; skip] <;>
    first
      | (cases hl : lookupA st.fsCache (pathResolve env.cwd p) <;>
          [simp_all [_getDir]; skip] <;>
         rename_i v <;> cases v <;> simp_all [_getDir])
      | simp_all [_getDir]

theorem getFile_miss_events (env : Env) (st : HbState) (p : String) (o : TOpts)
    (h : lookupA st.fsCache (pathResolve env.cwd p) = none) :
    (_getFile env st p o).2.2 = [.readFile (pathResolve env.cwd p)] := by
  by_cases hc : o.cache <;>
    cases he : lookupA env.files (pathResolve env.cwd p) <;>
      simp [_getFile, hc, h, he]

theorem getDir_miss_events (env : Env) (st : HbState) (p : String) (o : TOpts)
    (h : lookupA st.fsCache (pathResolve env.cwd p) = none) :
    (_getDir env st p o).2.2 = [.globDir (pathResolve env.cwd p)] := by
  by_cases hc : o.cache <;>
    cases he : lookupA env.globs (pathResolve env.cwd p) <;>
      simp [_getDir, hc, h, he]

theorem getTemplate_error_evicts (env : Env) (st : HbState) (p : String) (o : TOpts)
    (e : Err) (h : (getTemplate env st p o).1 = .error e) :
    lookupA (if o.precompiled then (getTemplate env st p o).2.1.precompiled
      else (getTemplate env st p o).2.1.compiled) (pathResolve env.cwd p) = none := by
  by_cases hp : o.precompiled <;> by_cases hc : o.cache
  all_goals
    rcases hf : _getFile env st p { o with precompiled := false } with ⟨r, st₁, evs⟩
  all_goals cases r with
  | ok file =>
    cases hcomp : (if o.precompiled then _precompileTemplate env file
        else _compileTemplate env file) with
    | ok t =>
      first
        | (cases hl : lookupA (if o.precompiled then st.precompiled else st.compiled)
              (pathResolve env.cwd p) <;>
            simp_all [getTemplate, getTemplateMiss, lookupA_listErase_self])
        | simp_all [getTemplate, getTemplateMiss, lookupA_listErase_self]
    | error e2 =>
      first
        | (cases hl : lookupA (if o.precompiled then st.precompiled else st.compiled)
              (pathResolve env.cwd p) <;>
            simp_all [getTemplate, getTemplateMiss, lookupA_listErase_self])
        | simp_all [getTemplate, getTemplateMiss, lookupA_listErase_self]
  | error e2 =>
    first
      | (cases hl : lookupA (if o.precompiled then st.precompiled else st.compiled)
            (pathResolve env.cwd p) <;>
          simp_all [getTemplate, getTemplateMiss, lookupA_listErase_self])
      | simp_all [getTemplate, getTemplateMiss, lookupA_listErase_self]

/-- Claim C5: when a file read, directory listing or template
load/compile fails, the failing operation leaves no entry for that path
in the relevant cache (`_fsCache` for `_getFile`/`_getDir`, the selected
compiled/precompiled cache for `getTemplate`), and a repeated call for
the same path performs a fresh filesystem operation instead of being
served from a poisoned entry. -/
theorem c5_failure_evicts :
    (∀ (env : Env) (st : HbState) (p : String) (o : TOpts) (e : Err),
      (_getFile env st p o).1 = .error e →
        lookupA ((_getFile env st p o).2.1.fsCache) (pathResolve env.cwd p) = none ∧
        (_getFile env (_getFile env st p o).2.1 p o).2.2
          = [.readFile (pathResolve env.cwd p)]) ∧
    (∀ (env : Env) (st : HbState) (p : String) (o : TOpts) (e : Err),
      (_getDir env st p o).1 = .error e →
        lookupA ((_getDir env st p o).2.1.fsCache) (pathResolve env.cwd p) = none ∧
        (_getDir env (_getDir env st p o).2.1 p o).2.2
          = [.globDir (pathResolve env.cwd p)]) ∧
    (∀ (env : Env) (st : HbState) (p : String) (o : TOpts) (e : Err),
      (getTemplate env st p o).1 = .error e →
        lookupA (if o.precompiled then (getTemplate env st p o).2.1.precompiled
          else (getTemplate env st p o).2.1.compiled) (pathResolve env.cwd p) = none) := by
  refine ⟨?_, ?_, fun env st p o e h => getTemplate_error_evicts env st p o e h⟩
  · intro env st p o e h
    have h1 := getFile_error_evicts env st p o e h
    have h2 : lookupA ((_getFile env st p o).2.1.fsCache) (pathResolve env.cwd p)
        = none := by rw [h1]; exact lookupA_listErase_self _ _
    exact ⟨h2, getFile_miss_events env _ p o h2⟩
  · intro env st p o e h
    have h1 := getDir_error_evicts env st p o e h
    have h2 : lookupA ((_getDir env st p o).2.1.fsCache) (pathResolve env.cwd p)
        = none := by rw [h1]; exact lookupA_listErase_self _ _
    exact ⟨h2, getDir_miss_events env _ p o h2⟩

/-- Witness for C5 at concrete failing inputs: a missing file, a missing
directory and a missing template path. -/
theorem c5_witness :
    ((_getFile {} { fsCache := [("/stale.handlebars", FsVal.file "old")] }
        "/nope.handlebars" ⟨true, false, none⟩).1
      = .error (.readError "/nope.handlebars")) ∧
    lookupA ((_getFile {} { fsCache := [("/stale.handlebars", FsVal.file "old")] }
        "/nope.handlebars" ⟨true, false, none⟩).2.1.fsCache) "/nope.handlebars" = none ∧
    ((_getDir {} {} "/nodir" {}).1 = .error (.globError "/nodir")) ∧
    lookupA ((_getDir {} {} "/nodir" {}).2.1.fsCache) "/nodir" = none ∧
    ((getTemplate {} { compiled := [("/nope.handlebars", "old")] }
        "/nope.handlebars" {}).1 = .error (.readError "/nope.handlebars")) ∧
    lookupA ((getTemplate {} { compiled := [("/nope.handlebars", "old")] }
        "/nope.handlebars" {}).2.1.compiled) "/nope.handlebars" = none := by
  have hf := (c5_failure_evicts.1 {} { fsCache := [("/stale.handlebars", FsVal.file "old")] }
      "/nope.handlebars" ⟨true, false, none⟩ (.readError "/nope.handlebars") (by decide)).1
  have hd := (c5_failure_evicts.2.1 {} {} "/nodir" {}
      (.globError "/nodir") (by decide)).1
  have ht := c5_failure_evicts.2.2 {} { compiled := [("/nope.handlebars", "old")] }
      "/nope.handlebars" {} (.readError "/nope.handlebars") (by decide)
  refine ⟨by decide, ?_, by decide, ?_, by decide, ?_⟩
  · simpa using hf
  · simpa using hd
  · simpa using ht

/-- Witness for the amended statement of C1 at a concrete input. -/
theorem c1_witness :
    lookupA ({ files := [("/a.handlebars", "x")] } : Env).files
        (pathResolve "/" "/a.handlebars") = some "x" ∧
    lookupA ((_getFile { files := [("/a.handlebars", "x")] } {} "/a.handlebars"
        { cache := false }).2.1.fsCache) (pathResolve "/" "/a.handlebars")
      = some (.file "x") :=
  ⟨by decide,
    c1_nocache_fresh_but_stored.2.2.2.1 { files := [("/a.handlebars", "x")] } {}
      "/a.handlebars" none "x" (by decide)⟩

/-! ## Claim C2 — invalid partials-directory descriptor -/

theorem processOneDir_invalid (env : Env) (st : HbState) (d : PartialsDirVal)
    (opts : TOpts) (h : isInvalidDir d = true) :
    processOneDir env st d opts = (.bad, st, [.raise (.configError partialsDirMsg)]) := by
  cases d with
  | str s => simp [isInvalidDir] at h; simp [processOneDir, h]
  | conf dir tms nsp ren =>
    simp only [isInvalidDir] at h
    simp [processOneDir, h]

theorem processOneDir_bad_iff (env : Env) (st : HbState) (d : PartialsDirVal)
    (opts : TOpts) :
    isBadDir (processOneDir env st d opts).1 = isInvalidDir d := by
  cases d with
  | str s =>
    by_cases h : s = ""
    · simp [processOneDir, isInvalidDir, h, isBadDir]
    · rcases hg : getTemplates env st s opts with ⟨r, st₁, evs⟩
      cases r <;> simp [processOneDir, isInvalidDir, h, isBadDir, hg]
  | conf dir tms nsp ren =>
    by_cases h : ((dir.getD "") = "" && tms.isNone) = true
    · simp [processOneDir, isInvalidDir, h, isBadDir]
    · cases tms with
      | some t => simp [processOneDir, isInvalidDir, h, isBadDir]
      | none =>
        rcases hg : getTemplates env st (dir.getD "") opts with ⟨r, st₁, evs⟩
        cases r <;> simp_all [processOneDir, isInvalidDir, isBadDir, hg]

theorem processDirs_any_bad (env : Env) (st : HbState) (ds : List PartialsDirVal)
    (opts : TOpts) :
    (processDirs env st ds opts).1.any isBadDir = ds.any isInvalidDir := by
  induction ds generalizing st with
  | nil => simp [processDirs]
  | cons d rest ih =>
    rcases ho : processOneDir env st d opts with ⟨o, st₁, evs₁⟩
    have h1 := processOneDir_bad_iff env st d opts
    rw [ho] at h1
    rcases hr : processDirs env st₁ rest opts with ⟨os, st₂, evs₂⟩
    have h2 := ih st₁
    rw [hr] at h2
    simp [processDirs, ho, hr, List.any_cons, h1, h2]

/-- Counterexample to claim C2 as stated: with descriptors
`['/p', {}]` — a valid path followed by an invalid descriptor — the call
fails with the configuration error, but the event trace shows the
directory-listing I/O for the first descriptor issued BEFORE the error is
raised, so the error is not raised before any filesystem I/O is issued
for any descriptor. -/
theorem c2_counterexample :
    ((getPartials {} { globs := [("/p", [])] }
        { partialsDir := some (.many [.str "/p", .conf none none none none]) } {}).1
      = .error (.configError partialsDirMsg)) ∧
    ((getPartials {} { globs := [("/p", [])] }
        { partialsDir := some (.many [.str "/p", .conf none none none none]) } {}).2.2
      = [.globDir "/p", .raise (.configError partialsDirMsg)]) :=
  ⟨rfl, rfl⟩

/-- Claim C2 as amended: whenever some configured partials-directory
descriptor supplies neither a path nor pre-supplied artifacts,
`getPartials` fails with the configuration error
the message `A partials dir must be a string or config object`, and the invalid
descriptor itself causes no filesystem I/O and no state change (its whole
contribution to the trace is the raised error) — but directory listings
for the other descriptors are still initiated, since every descriptor is
started concurrently, so the error does not precede all I/O. -/
theorem c2_config_error :
    (∀ (env : Env) (st : HbState) (d : PartialsDirVal) (opts : TOpts),
      isInvalidDir d = true →
        processOneDir env st d opts
          = (.bad, st, [.raise (.configError partialsDirMsg)])) ∧
    (∀ (cfg : Config) (env : Env) (st : HbState) (setting : PartialsSetting)
        (opts : TOpts),
      st.partialsDir = some setting →
        (settingDirs setting).any isInvalidDir = true →
          (getPartials cfg env st opts).1 = .error (.configError partialsDirMsg)) := by
  refine ⟨processOneDir_invalid, ?_⟩
  intro cfg env st setting opts hpd hinv
  rcases hp : processDirs env st (settingDirs setting) opts with ⟨outs, st₁, evs⟩
  have h1 := processDirs_any_bad env st (settingDirs setting) opts
  rw [hp] at h1
  simp [getPartials, hpd, hp, h1, hinv]

/-- Witness for the amended statement of C2 at a concrete invalid descriptor. -/
theorem c2_witness :
    isInvalidDir (.conf none none none none) = true ∧
    processOneDir {} {} (.conf none none none none) {}
      = (.bad, {}, [.raise (.configError partialsDirMsg)]) ∧
    ({ partialsDir := some (.many [.str "/p", .conf none none none none]) }
        : HbState).partialsDir
      = some (.many [.str "/p", .conf none none none none]) ∧
    (settingDirs (.many [.str "/p", .conf none none none none])).any isInvalidDir
      = true ∧
    (getPartials {} { globs := [("/p", [])] }
        { partialsDir := some (.many [.str "/p", .conf none none none none]) } {}).1
      = .error (.configError partialsDirMsg) :=
  ⟨rfl,
    c2_config_error.1 {} {} (.conf none none none none) {} rfl,
    rfl, rfl,
    c2_config_error.2 {} { globs := [("/p", [])] }
      { partialsDir := some (.many [.str "/p", .conf none none none none]) }
      (.many [.str "/p", .conf none none none none]) {} rfl rfl⟩

/-! ## Claim C4 — partials merge order and naming -/

/-- Left-biased choice, modelling that an earlier-written mapping entry is
only visible where no later write exists. -/
def oor {α : Type} : Option α → Option α → Option α
  | some v, _ => some v
  | none, b => b

theorem lookupA_foldl_listSet {α β : Type} (key : β → String) (val : β → α)
    (l : List β) (acc : List (String × α)) (n : String) :
    lookupA (l.foldl (fun a e => listSet a (key e) (val e)) acc) n
      = oor (lookupA (l.foldl (fun a e => listSet a (key e) (val e)) []) n)
          (lookupA acc n) := by
  induction l generalizing acc with
  | nil => simp [lookupA, oor]
  | cons e rest ih =>
    rw [List.foldl_cons, List.foldl_cons, ih (listSet acc (key e) (val e)),
      ih (listSet [] (key e) (val e))]
    cases hF : lookupA (rest.foldl (fun a e => listSet a (key e) (val e)) []) n with
    | some w => simp [oor]
    | none =>
      by_cases h : n = key e
      · subst h
        simp [oor, lookupA_listSet_self]
      · simp [oor, lookupA_listSet_ne _ _ _ _ h, lookupA, listSet, Ne.symm h]

theorem lookupA_mergeOneDir (cfg : Config) (acc : List (String × String))
    (o : DirOut) (n : String) :
    lookupA (mergeOneDir cfg acc o) n
      = oor (lookupA (mergeOneDir cfg [] o) n) (lookupA acc n) := by
  cases o with
  | good tms nsp ren => exact lookupA_foldl_listSet _ _ tms acc n
  | bad => simp [mergeOneDir, lookupA, oor]
  | failed e => simp [mergeOneDir, lookupA, oor]

theorem lookupA_foldl_mergeOneDir (cfg : Config) (outs : List DirOut)
    (acc : List (String × String)) (n : String) :
    lookupA (outs.foldl (mergeOneDir cfg) acc) n
      = oor (lookupA (outs.foldl (mergeOneDir cfg) []) n) (lookupA acc n) := by
  induction outs generalizing acc with
  | nil => simp [lookupA, oor]
  | cons o rest ih =>
    rw [List.foldl_cons, List.foldl_cons, ih (mergeOneDir cfg acc o),
      ih (mergeOneDir cfg [] o)]
    cases hF : lookupA (rest.foldl (mergeOneDir cfg) []) n with
    | some w => simp [oor]
    | none => simp [oor, lookupA_mergeOneDir cfg acc o n]

theorem processDirs_supplied (env : Env) (st : HbState) (opts : TOpts)
    (L : List (List (String × String) × Option String
      × Option (String → Option String → String))) :
    processDirs env st
        (L.map (fun x => PartialsDirVal.conf none (some x.1) x.2.1 x.2.2)) opts
      = (L.map (fun x => DirOut.good x.1 x.2.1 x.2.2), st, []) := by
  induction L generalizing st with
  | nil => simp [processDirs]
  | cons x rest ih => simp [processDirs, processOneDir, ih]

theorem findSome?_dirFailure_goods
    (L : List (List (String × String) × Option String
      × Option (String → Option String → String))) :
    (L.map (fun x => DirOut.good x.1 x.2.1 x.2.2)).findSome? dirFailure = none := by
  induction L with
  | nil => simp
  | cons x rest ih => simp [dirFailure, ih]

theorem any_isBadDir_goods
    (L : List (List (String × String) × Option String
      × Option (String → Option String → String))) :
    (L.map (fun x => DirOut.good x.1 x.2.1 x.2.2)).any isBadDir = false := by
  induction L with
  | nil => simp
  | cons x rest ih => simp [isBadDir, ih]

/-- Claim C4: `getPartials` merges the descriptors in configured order.
Conjuncts: (1) with every descriptor supplying its artifacts directly, the
result is exactly the in-order fold of the per-directory merge;
(2) for each entry the canonical name is the rename function of the descriptor
when present, else `_getTemplateName` (strip extension, prefix a given
namespace); (3) on a canonical-name collision the later descriptor wins:
a lookup in the merge of `xs ++ ys` prefers the merge of `ys`;
(4) the concrete example of the spec: directories `[{A, namespace x}, {B}]`
both holding `card.handlebars` yield both `x/card` (from A) and `card`
(from B), and without the namespace the colliding name maps to the
artifact from B. -/
theorem c4_partials_merge :
    (∀ (cfg : Config) (env : Env) (st : HbState) (opts : TOpts)
        (L : List (List (String × String) × Option String
          × Option (String → Option String → String))),
      getPartials cfg env
          { st with partialsDir := some (.many
              (L.map (fun x => PartialsDirVal.conf none (some x.1) x.2.1 x.2.2))) }
          opts
        = (.ok ((L.map (fun x => DirOut.good x.1 x.2.1 x.2.2)).foldl
              (mergeOneDir cfg) []),
            { st with partialsDir := some (.many
              (L.map (fun x => PartialsDirVal.conf none (some x.1) x.2.1 x.2.2))) },
            [])) ∧
    (∀ (cfg : Config) (tms : List (String × String)) (nsp : Option String)
        (acc : List (String × String)),
      mergeOneDir cfg acc (.good tms nsp none)
        = tms.foldl (fun a e => listSet a (_getTemplateName cfg e.1 nsp) e.2) acc) ∧
    (∀ (cfg : Config) (tms : List (String × String)) (nsp : Option String)
        (f : String → Option String → String) (acc : List (String × String)),
      mergeOneDir cfg acc (.good tms nsp (some f))
        = tms.foldl (fun a e => listSet a (f e.1 nsp) e.2) acc) ∧
    (∀ (cfg : Config) (xs ys : List DirOut) (n : String),
      lookupA ((xs ++ ys).foldl (mergeOneDir cfg) []) n
        = oor (lookupA (ys.foldl (mergeOneDir cfg) []) n)
            (lookupA (xs.foldl (mergeOneDir cfg) []) n)) ∧
    ((getPartials {} {}
        { partialsDir := some (.many
            [.conf none (some [("card.handlebars", "t1")]) (some "x") none,
             .conf none (some [("card.handlebars", "t2")]) none none]) } {}).1
      = .ok [("x/card", "t1"), ("card", "t2")]) ∧
    ((getPartials {} {}
        { partialsDir := some (.many
            [.conf none (some [("card.handlebars", "t1")]) none none,
             .conf none (some [("card.handlebars", "t2")]) none none]) } {}).1
      = .ok [("card", "t2")]) := by
  refine ⟨?_, fun _ _ _ _ => rfl, fun _ _ _ _ _ => rfl, ?_, rfl, rfl⟩
  · intro cfg env st opts L
    have hp := processDirs_supplied env
      { st with partialsDir := some (.many
          (L.map (fun x => PartialsDirVal.conf none (some x.1) x.2.1 x.2.2))) } opts L
    simp [getPartials, settingDirs, hp, any_isBadDir_goods, findSome?_dirFailure_goods]
  · intro cfg xs ys n
    rw [List.foldl_append]
    exact lookupA_foldl_mergeOneDir cfg ys (xs.foldl (mergeOneDir cfg) []) n

/-! ## Claim C7 — views-root resolution -/

/-- The semantics the claim states for resolving a views search path (single
path or list): walk upward from the view path through parent directories
and return the first candidate that is an ancestor directory; `none` when
no candidate matches.  Stated from the claim to compare against `_resolveViewsPath` of the code. -/
def specViewsWalk (cwd : String) (views : List String) (file : String) :
    Option String :=
  (ancestorChain (normSegs (splitSegs (pathResolve cwd file)))).findSome?
    fun dirSegs => views.find? (fun v => pathResolve cwd v = joinSegs dirSegs)

/-- Counterexample to claim C7 as stated: with a single views path
`/other` that is NOT an ancestor of the view path, the code returns
`/other` unchanged, while the claimed upward walk finds no matching
candidate, so the claimed "nearest ancestor" resolution does not describe
the single-path case. -/
theorem c7_counterexample :
    (_resolveViewsPath "/" (some (.str "/other")) "/proj/views/home.handlebars"
        = some (.str "/other")) ∧
    specViewsWalk "/" ["/other"] "/proj/views/home.handlebars" = none ∧
    some (Val.str "/other") ≠ (none : Option Val) := by
  refine ⟨rfl, rfl, by simp⟩

theorem zip_self_map {α β : Type} (l : List α) (f : α → β) :
    l.zip (l.map f) = l.map (fun x => (x, f x)) := by
  induction l with
  | nil => rfl
  | cons a rest ih => simp [ih]

theorem findSome?_zipmap_chain (f : Val → String) (vs : List Val)
    (chain : List (List String)) (v : Val)
    (h : chain.findSome? (fun dirSegs =>
        (((vs.zip (vs.map f))).find? (fun p => p.2 = joinSegs dirSegs)).map (·.1))
      = some v) :
    v ∈ vs ∧ f v ∈ chain.map joinSegs ∧
      (chain.map joinSegs).find? (fun d => decide (d ∈ vs.map f)) = some (f v) := by
  induction chain with
  | nil => simp at h
  | cons d rest ih =>
    rw [List.findSome?_cons] at h
    cases hfa : (vs.zip (vs.map f)).find? (fun p => p.2 = joinSegs d) with
    | some pr =>
      obtain ⟨v', a⟩ := pr
      rw [hfa] at h
      simp only [Option.map_some'] at h
      injection h with hv
      subst hv
      have hmem : (v', a) ∈ vs.zip (vs.map f) := List.mem_of_find?_eq_some hfa
      have hpred := List.find?_some hfa
      simp only [decide_eq_true_eq] at hpred
      rw [zip_self_map] at hmem
      obtain ⟨x, hx, hxa⟩ := List.mem_map.mp hmem
      obtain ⟨rfl, rfl⟩ : x = v' ∧ f x = a := by
        constructor <;> [exact congrArg Prod.fst hxa; exact congrArg Prod.snd hxa]
      refine ⟨hx, ?_, ?_⟩
      · rw [List.map_cons, hpred]
        exact List.mem_cons_self _ _
      · have hin : joinSegs d ∈ vs.map f := hpred ▸ List.mem_map_of_mem f hx
        rw [List.map_cons, List.find?_cons]
        simp [hin, hpred]
    | none =>
      rw [hfa] at h
      simp only [Option.map_none'] at h
      obtain ⟨h1, h2, h3⟩ := ih h
      have hnot : joinSegs d ∉ vs.map f := by
        intro hcontra
        obtain ⟨x, hx, hfx⟩ := List.mem_map.mp hcontra
        have := List.find?_eq_none.mp hfa (x, f x) (by
          rw [zip_self_map]
          exact List.mem_map_of_mem _ hx)
        simp [hfx] at this
      refine ⟨h1, by rw [List.map_cons]; exact List.mem_cons_of_mem _ h2, ?_⟩
      have hpd : (decide (joinSegs d ∈ List.map f vs)) = false := by simp [hnot]
      simp only [List.map_cons, List.find?_cons, hpd]
      exact h3

theorem getFile_preserves_dirs (env : Env) (st : HbState) (p : String) (o : TOpts) :
    (_getFile env st p o).2.1.partialsDir = st.partialsDir ∧
    (_getFile env st p o).2.1.layoutsDir = st.layoutsDir := by
  by_cases hc : o.cache <;>
    cases hl : lookupA st.fsCache (pathResolve env.cwd p) <;>
    cases he : lookupA env.files (pathResolve env.cwd p) <;>
    first
      | (rename_i v _; cases v <;> simp_all [_getFile])
      | (rename_i v; cases v <;> simp_all [_getFile])
      | simp_all [_getFile]

theorem getDir_preserves_dirs (env : Env) (st : HbState) (p : String) (o : TOpts) :
    (_getDir env st p o).2.1.partialsDir = st.partialsDir ∧
    (_getDir env st p o).2.1.layoutsDir = st.layoutsDir := by
  by_cases hc : o.cache <;>
    cases hl : lookupA st.fsCache (pathResolve env.cwd p) <;>
    cases he : lookupA env.globs (pathResolve env.cwd p) <;>
    first
      | (rename_i v _; cases v <;> simp_all [_getDir])
      | (rename_i v; cases v <;> simp_all [_getDir])
      | simp_all [_getDir]

theorem getTemplate_preserves_dirs (env : Env) (st : HbState) (p : String)
    (o : TOpts) :
    (getTemplate env st p o).2.1.partialsDir = st.partialsDir ∧
    (getTemplate env st p o).2.1.layoutsDir = st.layoutsDir := by
  have hf := getFile_preserves_dirs env st p { o with precompiled := false }
  by_cases hc : o.cache
  all_goals
    rcases hgf : _getFile env st p { o with precompiled := false } with ⟨r, st₁, evs⟩
  all_goals rw [hgf] at hf
  all_goals cases r with
  | ok file =>
    cases hcomp : (if o.precompiled then _precompileTemplate env file
        else _compileTemplate env file) with
    | ok t =>
      first
        | (cases hl : lookupA (if o.precompiled then st.precompiled else st.compiled)
              (pathResolve env.cwd p) <;>
            (by_cases hp : o.precompiled <;> simp_all [getTemplate, getTemplateMiss]))
        | (by_cases hp : o.precompiled <;> simp_all [getTemplate, getTemplateMiss])
    | error e2 =>
      first
        | (cases hl : lookupA (if o.precompiled then st.precompiled else st.compiled)
              (pathResolve env.cwd p) <;>
            (by_cases hp : o.precompiled <;> simp_all [getTemplate, getTemplateMiss]))
        | (by_cases hp : o.precompiled <;> simp_all [getTemplate, getTemplateMiss])
  | error e2 =>
    first
      | (cases hl : lookupA (if o.precompiled then st.precompiled else st.compiled)
            (pathResolve env.cwd p) <;>
          (by_cases hp : o.precompiled <;> simp_all [getTemplate, getTemplateMiss]))
      | (by_cases hp : o.precompiled <;> simp_all [getTemplate, getTemplateMiss])

theorem getEachTemplate_preserves_dirs (env : Env) (st : HbState)
    (dirPath : String) (fs : List String) (o : TOpts) :
    (getEachTemplate env st dirPath fs o).2.1.partialsDir = st.partialsDir ∧
    (getEachTemplate env st dirPath fs o).2.1.layoutsDir = st.layoutsDir := by
  induction fs generalizing st with
  | nil => simp [getEachTemplate]
  | cons f rest ih =>
    rcases hg : getTemplate env st (pathJoin dirPath f) o with ⟨r, st₁, evs₁⟩
    have h1 := getTemplate_preserves_dirs env st (pathJoin dirPath f) o
    rw [hg] at h1
    rcases hr : getEachTemplate env st₁ dirPath rest o with ⟨rr, st₂, evs₂⟩
    have h2 := ih st₁
    rw [hr] at h2
    cases r <;> cases rr <;>
      simp_all [getEachTemplate, hg, hr]

theorem getTemplates_preserves_dirs (env : Env) (st : HbState) (dirPath : String)
    (o : TOpts) :
    (getTemplates env st dirPath o).2.1.partialsDir = st.partialsDir ∧
    (getTemplates env st dirPath o).2.1.layoutsDir = st.layoutsDir := by
  have hd := getDir_preserves_dirs env st dirPath o
  rcases hgd : _getDir env st dirPath o with ⟨r, st₁, evs⟩
  rw [hgd] at hd
  cases r with
  | ok fs =>
    have he := getEachTemplate_preserves_dirs env st₁ dirPath fs o
    rcases hge : getEachTemplate env st₁ dirPath fs o with ⟨rr, st₂, evs₂⟩
    rw [hge] at he
    simp_all [getTemplates, hgd, hge]
  | error e => simp_all [getTemplates, hgd]

theorem processOneDir_preserves_dirs (env : Env) (st : HbState)
    (d : PartialsDirVal) (o : TOpts) :
    (processOneDir env st d o).2.1.partialsDir = st.partialsDir ∧
    (processOneDir env st d o).2.1.layoutsDir = st.layoutsDir := by
  cases d with
  | str s =>
    by_cases h : s = ""
    · simp [processOneDir, h]
    · have hg := getTemplates_preserves_dirs env st s o
      rcases hgt : getTemplates env st s o with ⟨r, st₁, evs⟩
      rw [hgt] at hg
      cases r <;> simp_all [processOneDir, h, hgt]
  | conf dir tms nsp ren =>
    by_cases h : ((dir.getD "") = "" && tms.isNone) = true
    · simp [processOneDir, h]
    · cases tms with
      | some t => simp [processOneDir, h]
      | none =>
        have hg := getTemplates_preserves_dirs env st (dir.getD "") o
        rcases hgt : getTemplates env st (dir.getD "") o with ⟨r, st₁, evs⟩
        rw [hgt] at hg
        cases r <;> simp_all [processOneDir, hgt]

theorem processDirs_preserves_dirs (env : Env) (st : HbState)
    (ds : List PartialsDirVal) (o : TOpts) :
    (processDirs env st ds o).2.1.partialsDir = st.partialsDir ∧
    (processDirs env st ds o).2.1.layoutsDir = st.layoutsDir := by
  induction ds generalizing st with
  | nil => simp [processDirs]
  | cons d rest ih =>
    rcases ho : processOneDir env st d o with ⟨out, st₁, evs₁⟩
    have h1 := processOneDir_preserves_dirs env st d o
    rw [ho] at h1
    rcases hr : processDirs env st₁ rest o with ⟨os, st₂, evs₂⟩
    have h2 := ih st₁
    rw [hr] at h2
    simp_all [processDirs, ho, hr]

theorem getPartials_preserves_dirs (cfg : Config) (env : Env) (st : HbState)
    (o : TOpts) :
    (getPartials cfg env st o).2.1.partialsDir = st.partialsDir ∧
    (getPartials cfg env st o).2.1.layoutsDir = st.layoutsDir := by
  cases hpd : st.partialsDir with
  | none => simp [getPartials, hpd]
  | some setting =>
    have hp := processDirs_preserves_dirs env st (settingDirs setting) o
    rcases hpr : processDirs env st (settingDirs setting) o with ⟨outs, st₁, evs⟩
    rw [hpr] at hp
    have hp1 : st₁.partialsDir = st.partialsDir := hp.1
    have hp2 : st₁.layoutsDir = st.layoutsDir := hp.2
    by_cases hb : outs.any isBadDir
    · simp [getPartials, hpd, hpr, hb, hp1, hp2]
    · cases hff : outs.findSome? dirFailure <;>
        simp [getPartials, hpd, hpr, hb, hff, hp1, hp2]

/-- Claim C7 as amended: when the views search path is a LIST, the resolved
root is found by walking upward through the parent directories of the view path
— any returned candidate is one of the views entries, its resolved path is
an ancestor directory of the view path, and it is the nearest such
ancestor (the first directory in the upward walk that matches any
candidate); when no candidate matches, resolution yields nothing and
`renderView` leaves the partials/layouts directories of the instance unchanged.
A SINGLE views path however is returned as-is, without any ancestor
check. -/
theorem c7_views_resolution :
    (∀ (cwd s file : String),
      _resolveViewsPath cwd (some (.str s)) file = some (.str s)) ∧
    (∀ (cwd : String) (vs : List Val) (file : String) (v : Val),
      _resolveViewsPath cwd (some (.arr vs)) file = some v →
        v ∈ vs ∧
        pathResolve cwd (valToStr v)
          ∈ (ancestorChain (normSegs (splitSegs (pathResolve cwd file)))).map joinSegs ∧
        ((ancestorChain (normSegs (splitSegs (pathResolve cwd file)))).map
            joinSegs).find?
            (fun d => decide (d ∈ vs.map (fun w => pathResolve cwd (valToStr w))))
          = some (pathResolve cwd (valToStr v))) ∧
    (∀ (cfg : Config) (env : Env) (st : HbState) (vp : String) (options : Obj),
      _resolveViewsPath env.cwd (settingsViews options) vp = none →
        (renderViewSetup cfg env st vp options).2.1.partialsDir = st.partialsDir ∧
        (renderViewSetup cfg env st vp options).2.1.layoutsDir = st.layoutsDir) := by
  refine ⟨fun _ _ _ => rfl, ?_, ?_⟩
  · intro cwd vs file v h
    simp only [_resolveViewsPath] at h
    exact findSome?_zipmap_chain (fun w => pathResolve cwd (valToStr w)) vs _ v h
  · intro cfg env st vp options h
    have hsv : setupViewsState cfg env st vp options = (none, st) := by
      simp [setupViewsState, h]
    have hp := getPartials_preserves_dirs cfg env st
      { cache := jsTruthy ((objGet options "cache").getD .null),
        encoding := some (setupEncoding cfg options) }
    rcases hgp : getPartials cfg env st
        { cache := jsTruthy ((objGet options "cache").getD .null),
          encoding := some (setupEncoding cfg options) } with ⟨r, st₂, evs⟩
    rw [hgp] at hp
    have hp1 : st₂.partialsDir = st.partialsDir := hp.1
    have hp2 : st₂.layoutsDir = st.layoutsDir := hp.2
    cases r <;> simp [renderViewSetup, hsv, hgp, hp1, hp2]

/-- Witness for the amended statement of C7: a two-candidate list resolves to
the nearest ancestor, and a no-match list leaves the directories alone. -/
theorem c7_witness :
    (_resolveViewsPath "/" (some (.arr [.str "/proj/views", .str "/proj"]))
        "/proj/views/home.handlebars" = some (.str "/proj/views")) ∧
    Val.str "/proj/views" ∈ [Val.str "/proj/views", Val.str "/proj"] ∧
    (_resolveViewsPath "/" (some (.arr [.str "/zz"]))
        "/proj/views/home.handlebars" = none) ∧
    (renderViewSetup {} {} {} "/proj/views/home.handlebars"
        [("settings", .obj [("views", .arr [.str "/zz"])])]).2.1.partialsDir = none :=
  ⟨rfl,
    (c7_views_resolution.2.1 "/" [.str "/proj/views", .str "/proj"]
      "/proj/views/home.handlebars" (.str "/proj/views") rfl).1,
    rfl,
    (c7_views_resolution.2.2 {} {} {} "/proj/views/home.handlebars"
      [("settings", .obj [("views", .arr [.str "/zz"])])] rfl).1⟩

/-! ## Render-call traces -/

def isRenderEv : Ev → Bool
  | .renderCall _ _ _ => true
  | _ => false

theorem renderCalls_nil_of_all (evs : List Ev)
    (h : evs.all (fun e => !isRenderEv e) = true) :
    renderCallCtxs evs = [] ∧ renderCallLayouts evs = [] := by
  induction evs with
  | nil => simp [renderCallCtxs, renderCallLayouts]
  | cons e rest ih =>
    simp only [List.all_cons, Bool.and_eq_true] at h
    cases e <;> simp_all [renderCallCtxs, renderCallLayouts, isRenderEv]

theorem renderCallCtxs_cons_render (p : String) (c : Obj) (l : Option Val)
    (evs : List Ev) :
    renderCallCtxs (.renderCall p c l :: evs) = (p, c) :: renderCallCtxs evs := rfl

theorem renderCallLayouts_cons_render (p : String) (c : Obj) (l : Option Val)
    (evs : List Ev) :
    renderCallLayouts (.renderCall p c l :: evs) = l :: renderCallLayouts evs := rfl

theorem renderCallCtxs_append (a b : List Ev) :
    renderCallCtxs (a ++ b) = renderCallCtxs a ++ renderCallCtxs b := by
  simp [renderCallCtxs]

theorem renderCallLayouts_append (a b : List Ev) :
    renderCallLayouts (a ++ b) = renderCallLayouts a ++ renderCallLayouts b := by
  simp [renderCallLayouts]

theorem getFile_events_all (env : Env) (st : HbState) (p : String) (o : TOpts) :
    ((_getFile env st p o).2.2).all (fun e => !isRenderEv e) = true := by
  by_cases hc : o.cache <;>
    cases hl : lookupA st.fsCache (pathResolve env.cwd p) <;>
    cases he : lookupA env.files (pathResolve env.cwd p) <;>
    first
      | (rename_i v _; cases v <;> simp_all [_getFile, isRenderEv])
      | (rename_i v; cases v <;> simp_all [_getFile, isRenderEv])
      | simp_all [_getFile, isRenderEv]

theorem getDir_events_all (env : Env) (st : HbState) (p : String) (o : TOpts) :
    ((_getDir env st p o).2.2).all (fun e => !isRenderEv e) = true := by
  by_cases hc : o.cache <;>
    cases hl : lookupA st.fsCache (pathResolve env.cwd p) <;>
    cases he : lookupA env.globs (pathResolve env.cwd p) <;>
    first
      | (rename_i v _; cases v <;> simp_all [_getDir, isRenderEv])
      | (rename_i v; cases v <;> simp_all [_getDir, isRenderEv])
      | simp_all [_getDir, isRenderEv]

theorem getTemplate_events_all (env : Env) (st : HbState) (p : String) (o : TOpts) :
    ((getTemplate env st p o).2.2).all (fun e => !isRenderEv e) = true := by
  have hf := getFile_events_all env st p { o with precompiled := false }
  by_cases hc : o.cache
  all_goals
    rcases hgf : _getFile env st p { o with precompiled := false } with ⟨r, st₁, evs⟩
  all_goals rw [hgf] at hf
  all_goals cases r with
  | ok file =>
    cases hcomp : (if o.precompiled then _precompileTemplate env file
        else _compileTemplate env file) with
    | ok t =>
      first
        | (cases hl : lookupA (if o.precompiled then st.precompiled else st.compiled)
              (pathResolve env.cwd p) <;>
            (by_cases hp : o.precompiled <;> simp_all [getTemplate, getTemplateMiss]))
        | (by_cases hp : o.precompiled <;> simp_all [getTemplate, getTemplateMiss])
    | error e2 =>
      first
        | (cases hl : lookupA (if o.precompiled then st.precompiled else st.compiled)
              (pathResolve env.cwd p) <;>
            (by_cases hp : o.precompiled <;> simp_all [getTemplate, getTemplateMiss]))
        | (by_cases hp : o.precompiled <;> simp_all [getTemplate, getTemplateMiss])
  | error e2 =>
    first
      | (cases hl : lookupA (if o.precompiled then st.precompiled else st.compiled)
            (pathResolve env.cwd p) <;>
          (by_cases hp : o.precompiled <;> simp_all [getTemplate, getTemplateMiss]))
      | (by_cases hp : o.precompiled <;> simp_all [getTemplate, getTemplateMiss])

theorem getEachTemplate_events_all (env : Env) (st : HbState) (dirPath : String)
    (fs : List String) (o : TOpts) :
    ((getEachTemplate env st dirPath fs o).2.2).all (fun e => !isRenderEv e) = true := by
  induction fs generalizing st with
  | nil => simp [getEachTemplate]
  | cons f rest ih =>
    rcases hg : getTemplate env st (pathJoin dirPath f) o with ⟨r, st₁, evs₁⟩
    have h1 := getTemplate_events_all env st (pathJoin dirPath f) o
    rw [hg] at h1
    rcases hr : getEachTemplate env st₁ dirPath rest o with ⟨rr, st₂, evs₂⟩
    have h2 := ih st₁
    rw [hr] at h2
    cases r <;> cases rr <;> simp_all [getEachTemplate, hg, hr, List.all_append]

theorem getTemplates_events_all (env : Env) (st : HbState) (dirPath : String)
    (o : TOpts) :
    ((getTemplates env st dirPath o).2.2).all (fun e => !isRenderEv e) = true := by
  have hd := getDir_events_all env st dirPath o
  rcases hgd : _getDir env st dirPath o with ⟨r, st₁, evs⟩
  rw [hgd] at hd
  cases r with
  | ok fs =>
    have he := getEachTemplate_events_all env st₁ dirPath fs o
    rcases hge : getEachTemplate env st₁ dirPath fs o with ⟨rr, st₂, evs₂⟩
    rw [hge] at he
    simp_all [getTemplates, hgd, hge, List.all_append]
  | error e => simp_all [getTemplates, hgd]

theorem processOneDir_events_all (env : Env) (st : HbState) (d : PartialsDirVal)
    (o : TOpts) :
    ((processOneDir env st d o).2.2).all (fun e => !isRenderEv e) = true := by
  cases d with
  | str s =>
    by_cases h : s = ""
    · simp [processOneDir, h, isRenderEv]
    · have hg := getTemplates_events_all env st s o
      rcases hgt : getTemplates env st s o with ⟨r, st₁, evs⟩
      rw [hgt] at hg
      cases r <;> simp_all [processOneDir, h, hgt]
  | conf dir tms nsp ren =>
    by_cases h : ((dir.getD "") = "" && tms.isNone) = true
    · simp [processOneDir, h, isRenderEv]
    · cases tms with
      | some t => simp [processOneDir, h]
      | none =>
        have hg := getTemplates_events_all env st (dir.getD "") o
        rcases hgt : getTemplates env st (dir.getD "") o with ⟨r, st₁, evs⟩
        rw [hgt] at hg
        cases r <;> simp_all [processOneDir, hgt]

theorem processDirs_events_all (env : Env) (st : HbState)
    (ds : List PartialsDirVal) (o : TOpts) :
    ((processDirs env st ds o).2.2).all (fun e => !isRenderEv e) = true := by
  induction ds generalizing st with
  | nil => simp [processDirs]
  | cons d rest ih =>
    rcases ho : processOneDir env st d o with ⟨out, st₁, evs₁⟩
    have h1 := processOneDir_events_all env st d o
    rw [ho] at h1
    rcases hr : processDirs env st₁ rest o with ⟨os, st₂, evs₂⟩
    have h2 := ih st₁
    rw [hr] at h2
    simp_all [processDirs, ho, hr, List.all_append]

theorem getPartials_events_all (cfg : Config) (env : Env) (st : HbState)
    (o : TOpts) :
    ((getPartials cfg env st o).2.2).all (fun e => !isRenderEv e) = true := by
  cases hpd : st.partialsDir with
  | none => simp [getPartials, hpd]
  | some setting =>
    have hp := processDirs_events_all env st (settingDirs setting) o
    rcases hpr : processDirs env st (settingDirs setting) o with ⟨outs, st₁, evs⟩
    rw [hpr] at hp
    by_cases hb : outs.any isBadDir
    · simp [getPartials, hpd, hpr, hb, hp]
    · cases hff : outs.findSome? dirFailure <;>
        simp [getPartials, hpd, hpr, hb, hff, hp]

theorem renderViewSetup_events_all (cfg : Config) (env : Env) (st : HbState)
    (vp : String) (options : Obj) :
    ((renderViewSetup cfg env st vp options).2.2).all (fun e => !isRenderEv e)
      = true := by
  rcases hsv : setupViewsState cfg env st vp options with ⟨vn, st₁⟩
  have hp := getPartials_events_all cfg env st₁
    { cache := jsTruthy ((objGet options "cache").getD .null),
      encoding := some (setupEncoding cfg options) }
  rcases hgp : getPartials cfg env st₁
      { cache := jsTruthy ((objGet options "cache").getD .null),
        encoding := some (setupEncoding cfg options) } with ⟨r, st₂, evs⟩
  rw [hgp] at hp
  cases r <;> simp [renderViewSetup, hsv, hgp, hp]

theorem renderCalls_render (cfg : Config) (env : Env) (st : HbState) (fp : String)
    (ctx : Obj) (o : RenderOpts) :
    renderCallCtxs (render cfg env st fp ctx o).2.2 = [(fp, ctx)] ∧
    renderCallLayouts (render cfg env st fp ctx o).2.2 = [o.layout] := by
  have hgt0 := getTemplate_events_all env st fp
    ⟨o.cache, false, some (effEncoding o.encoding cfg.encoding)⟩
  rcases hgt : getTemplate env st fp
      ⟨o.cache, false, some (effEncoding o.encoding cfg.encoding)⟩ with ⟨r, st₁, evs₁⟩
  rw [hgt] at hgt0
  obtain ⟨h1c, h1l⟩ := renderCalls_nil_of_all evs₁ hgt0
  cases r with
  | error e =>
    simp only [render, hgt, renderCallCtxs_cons_render, renderCallLayouts_cons_render,
      h1c, h1l]
    exact ⟨trivial, trivial⟩
  | ok tmpl =>
    cases hp : o.partials with
    | some ps =>
      simp only [render, hgt, hp, renderCallCtxs_cons_render,
        renderCallLayouts_cons_render, renderCallCtxs_append,
        renderCallLayouts_append, h1c, h1l, List.append_nil]
      exact ⟨trivial, trivial⟩
    | none =>
      have hgp0 := getPartials_events_all cfg env st₁
        ⟨o.cache, false, some (effEncoding o.encoding cfg.encoding)⟩
      rcases hgp : getPartials cfg env st₁
          ⟨o.cache, false, some (effEncoding o.encoding cfg.encoding)⟩
        with ⟨pr, st₂, evs₂⟩
      rw [hgp] at hgp0
      obtain ⟨h2c, h2l⟩ := renderCalls_nil_of_all evs₂ hgp0
      cases pr <;>
        simp only [render, hgt, hp, hgp, renderCallCtxs_cons_render,
          renderCallLayouts_cons_render, renderCallCtxs_append,
          renderCallLayouts_append, h1c, h1l, h2c, h2l, List.append_nil] <;>
        exact ⟨trivial, trivial⟩

/-! ## Claims C3, C6, C10 — the renderView pipeline -/

/-- Claim C3: when a layout is in effect (the effective layout resolves to
a path), `renderView` returns the result of rendering that layout with a
context equal to the original context plus the reserved `body` field bound
to the rendered HTML of the main view; the recorded render invocations are
exactly the main view (with the context of the caller and the effective layout
option) followed by the layout (with the body-extended context and the
layout option cleared, disabling layout resolution on the nested call);
and the layout path is the layout name with the configured extension
appended when it has none, resolved against the layouts directory. -/
theorem c3_layout_composition (cfg : Config) (env : Env) (st : HbState)
    (vp : String) (options : Obj) (ro : RenderOpts) (st₁ st₂ : HbState)
    (evs₁ evs₂ : List Ev) (html : String) (lp : String)
    (hSetup : renderViewSetup cfg env st vp options = (.ok ro, st₁, evs₁))
    (hView : render cfg env st₁ vp options ro = (.ok html, st₂, evs₂))
    (hLay : _resolveLayoutPath cfg env st₂ ro.layout = some lp) :
    (renderView cfg env st vp options
      = ((render cfg env st₂ lp (objSet options "body" (.str html))
            { ro with layout := none }).1,
         (render cfg env st₂ lp (objSet options "body" (.str html))
            { ro with layout := none }).2.1,
         evs₁ ++ evs₂
           ++ (render cfg env st₂ lp (objSet options "body" (.str html))
            { ro with layout := none }).2.2)) ∧
    renderCallCtxs (renderView cfg env st vp options).2.2
      = [(vp, options), (lp, objSet options "body" (.str html))] ∧
    renderCallLayouts (renderView cfg env st vp options).2.2 = [ro.layout, none] ∧
    (∀ lv, ro.layout = some lv →
      lp = pathResolve2 env.cwd (st₂.layoutsDir.getD "")
        (if pathExtname (valToStr lv) = "" then valToStr lv ++ cfg.extname
         else valToStr lv)) := by
  have hS0 := renderViewSetup_events_all cfg env st vp options
  rw [hSetup] at hS0
  obtain ⟨hS1, hS2⟩ := renderCalls_nil_of_all evs₁ hS0
  have hV := renderCalls_render cfg env st₁ vp options ro
  rw [hView] at hV
  rcases hN : render cfg env st₂ lp (objSet options "body" (.str html))
      { ro with layout := none } with ⟨r₃, st₃, evs₃⟩
  have hL := renderCalls_render cfg env st₂ lp (objSet options "body" (.str html))
    { ro with layout := none }
  rw [hN] at hL
  have hmain : renderView cfg env st vp options = (r₃, st₃, evs₁ ++ evs₂ ++ evs₃) := by
    simp [renderView, hSetup, hView, hLay, hN]
  refine ⟨by simp [hmain, hN], ?_, ?_, ?_⟩
  · rw [hmain]
    simp only [renderCallCtxs_append, hS1, hV.1, hL.1]
    rfl
  · rw [hmain]
    simp only [renderCallLayouts_append, hS2, hV.2, hL.2]
    rfl
  · intro lv hlv
    rw [hlv] at hLay
    by_cases ht : jsTruthy lv
    · simp only [_resolveLayoutPath, ht, if_pos] at hLay
      injection hLay with h
      exact h.symm
    · simp [_resolveLayoutPath, ht] at hLay

/-- Claim C6: an explicit per-call `layout` key takes precedence over the
configured default layout for EVERY supplied value, truthy or falsy (the
configuration, including its default layout, is universally quantified):
the effective layout is exactly the value given by the caller.  When that
value is the falsy no-layout sentinel, layout-path resolution on it
returns nothing, and the nested layout render never happens —
`renderView` produces exactly the result of the main view and records exactly
one render invocation. -/
theorem c6_no_layout_sentinel (cfg : Config) (env : Env) (st : HbState)
    (vp : String) (options : Obj) (lv : Val) (ro : RenderOpts) (st₁ : HbState)
    (evs₁ : List Ev)
    (hk : objGet options "layout" = some lv)
    (hSetup : renderViewSetup cfg env st vp options = (.ok ro, st₁, evs₁)) :
    ro.layout = some lv ∧
    (jsTruthy lv = false →
      (∀ (cfg' : Config) (env' : Env) (st' : HbState),
        _resolveLayoutPath cfg' env' st' (some lv) = none) ∧
      (renderView cfg env st vp options).1 = (render cfg env st₁ vp options ro).1 ∧
      renderCallCtxs (renderView cfg env st vp options).2.2 = [(vp, options)]) := by
  have hlayout : ro.layout = some lv := by
    rcases hsv : setupViewsState cfg env st vp options with ⟨vn, st₁'⟩
    rcases hgp : getPartials cfg env st₁'
        { cache := jsTruthy ((objGet options "cache").getD .null),
          encoding := some (setupEncoding cfg options) } with ⟨r, st₂', evs'⟩
    cases r with
    | error e => simp [renderViewSetup, hsv, hgp] at hSetup
    | ok bp =>
      simp only [renderViewSetup, hsv, hgp, Prod.mk.injEq, Except.ok.injEq] at hSetup
      obtain ⟨hA, hB, hC⟩ := hSetup
      rw [← hA]
      have hk2 : lookupA options "layout" = some lv := hk
      simp [objHasKey, objGet, hk2]
  refine ⟨hlayout, fun hf => ?_⟩
  have hres : ∀ (cfg' : Config) (env' : Env) (st' : HbState),
      _resolveLayoutPath cfg' env' st' (some lv) = none := by
    intro cfg' env' st'
    simp [_resolveLayoutPath, hf]
  refine ⟨hres, ?_, ?_⟩ <;>
  · have hS0 := renderViewSetup_events_all cfg env st vp options
    rw [hSetup] at hS0
    obtain ⟨hS1, hS2⟩ := renderCalls_nil_of_all evs₁ hS0
    rcases hV : render cfg env st₁ vp options ro with ⟨r₂, st₂, evs₂⟩
    have hVc := renderCalls_render cfg env st₁ vp options ro
    rw [hV] at hVc
    cases r₂ with
    | error e => simp [renderView, hSetup, hV, renderCallCtxs_append, hS1, hVc.1]
    | ok html =>
      have hnone : _resolveLayoutPath cfg env st₂ ro.layout = none := by
        rw [hlayout]; exact hres cfg env st₂
      simp [renderView, hSetup, hV, hnone, renderCallCtxs_append, hS1, hVc.1]

/-- Claim C10: when `renderView` receives an options object, that object
itself is the data context of the main view render — the first recorded
render invocation carries the options object as its context, so every key
of the options object is visible to the template as a top-level context
variable. -/
theorem c10_options_object_is_context (cfg : Config) (env : Env) (st : HbState)
    (vp : String) (options : Obj) (ro : RenderOpts) (st₁ : HbState) (evs₁ : List Ev)
    (hSetup : renderViewSetup cfg env st vp options = (.ok ro, st₁, evs₁)) :
    (renderCallCtxs (renderView cfg env st vp options).2.2).head?
      = some (vp, options) := by
  have hS0 := renderViewSetup_events_all cfg env st vp options
  rw [hSetup] at hS0
  obtain ⟨hS1, hS2⟩ := renderCalls_nil_of_all evs₁ hS0
  rcases hV : render cfg env st₁ vp options ro with ⟨r₂, st₂, evs₂⟩
  have hVc := renderCalls_render cfg env st₁ vp options ro
  rw [hV] at hVc
  cases r₂ with
  | error e => simp [renderView, hSetup, hV, renderCallCtxs_append, hS1, hVc.1]
  | ok html =>
    cases hL : _resolveLayoutPath cfg env st₂ ro.layout with
    | none => simp [renderView, hSetup, hV, hL, renderCallCtxs_append, hS1, hVc.1]
    | some lp =>
      rcases hN : render cfg env st₂ lp (objSet options "body" (.str html))
          { ro with layout := none } with ⟨r₃, st₃, evs₃⟩
      have hNc := renderCalls_render cfg env st₂ lp (objSet options "body" (.str html))
        { ro with layout := none }
      rw [hN] at hNc
      simp [renderView, hSetup, hV, hL, hN, renderCallCtxs_append, hS1, hVc.1, hNc.1]

/-! Concrete scenario for the renderView witnesses: a view rendering to
`<p>X</p>` wrapped by a layout template that injects `body`. -/

def c3tmplBody : String := "<body>\x7b\x7b\x7bbody\x7d\x7d\x7d</body>"

def c3eval : String → Obj → String := fun t ctx =>
  if t = c3tmplBody then
    "<body>" ++ (match objGet ctx "body" with | some (.str s) => s | _ => "")
      ++ "</body>"
  else t

def c3env : Env :=
  { files := [("/views/home.handlebars", "\n<p>X</p>\n"),
      ("/views/layouts/main.handlebars", c3tmplBody)],
    hbEval := c3eval }

def c3cfg : Config := { layoutsDirCfg := some "/views/layouts" }

def c3st : HbState := { layoutsDir := some "/views/layouts" }

def c3ctx : Obj := [("title", .str "Hi")]

def c3ro : RenderOpts :=
  { cache := false, encoding := some "utf8", view := none,
    layout := some (.str "main"), data := none, helpers := some [],
    partials := some [], runtimeOptions := none }

def c3st2 : HbState :=
  { fsCache := [("/views/home.handlebars", .file "\n<p>X</p>\n")],
    compiled := [("/views/home.handlebars", "<p>X</p>")],
    layoutsDir := some "/views/layouts" }

def c3evs2 : List Ev :=
  [.renderCall "/views/home.handlebars" c3ctx (some (.str "main")),
   .readFile "/views/home.handlebars"]

/-- Witness for C3: the example of the spec — default layout `main`, layout
template `<body>{{{body}}}</body>`, view rendering to `<p>X</p>` — yields
`<body><p>X</p></body>`, with the layout rendered on the body-extended
context and layout resolution disabled on the nested call. -/
theorem c3_witness :
    (renderView c3cfg c3env c3st "/views/home.handlebars" c3ctx).1
        = .ok "<body><p>X</p></body>" ∧
    renderCallCtxs (renderView c3cfg c3env c3st "/views/home.handlebars" c3ctx).2.2
      = [("/views/home.handlebars", c3ctx),
         ("/views/layouts/main.handlebars", objSet c3ctx "body" (.str "<p>X</p>"))] ∧
    renderCallLayouts
        (renderView c3cfg c3env c3st "/views/home.handlebars" c3ctx).2.2
      = [some (.str "main"), none] := by
  have h := c3_layout_composition c3cfg c3env c3st "/views/home.handlebars" c3ctx
    c3ro c3st c3st2 [] c3evs2 "<p>X</p>" "/views/layouts/main.handlebars"
    rfl rfl rfl
  refine ⟨?_, h.2.1, h.2.2.1⟩
  rw [h.1]
  rfl

def c6cfg : Config := {}

def c6opts : Obj := [("layout", .bool false)]

def c6ro : RenderOpts :=
  { cache := false, encoding := some "utf8", view := none,
    layout := some (.bool false), data := none, helpers := some [],
    partials := some [], runtimeOptions := none }

def c6optsT : Obj := [("layout", .str "custom")]

def c6roT : RenderOpts :=
  { cache := false, encoding := some "utf8", view := none,
    layout := some (.str "custom"), data := none, helpers := some [],
    partials := some [], runtimeOptions := none }

/-- Witness for C6, against a configured default layout `main`: with an
explicit truthy `layout: "custom"` the effective layout is `custom`, not
the default; with an explicit `layout: false` the effective layout is the
sentinel, resolution returns nothing, and exactly one render invocation
(the view, with the options as context) happens. -/
theorem c6_witness :
    c6cfg.defaultLayout = .str "main" ∧
    c6roT.layout = some (.str "custom") ∧
    c6ro.layout = some (.bool false) ∧
    _resolveLayoutPath c6cfg {} {} (some (.bool false)) = none ∧
    (renderView c6cfg {} {} "/v.handlebars" c6opts).1
      = (render c6cfg {} {} "/v.handlebars" c6opts c6ro).1 ∧
    renderCallCtxs (renderView c6cfg {} {} "/v.handlebars" c6opts).2.2
      = [("/v.handlebars", c6opts)] := by
  have hT := c6_no_layout_sentinel c6cfg {} {} "/v.handlebars" c6optsT (.str "custom")
    c6roT {} [] rfl rfl
  have h := c6_no_layout_sentinel c6cfg {} {} "/v.handlebars" c6opts (.bool false)
    c6ro {} [] rfl rfl
  have h2 := h.2 rfl
  exact ⟨rfl, hT.1, h.1, h2.1 c6cfg {} {}, h2.2.1, h2.2.2⟩

def c10opts : Obj := [("cache", .bool true), ("title", .str "Hi")]

def c10ro : RenderOpts :=
  { cache := true, encoding := some "utf8", view := none,
    layout := some (.str "main"), data := none, helpers := some [],
    partials := some [], runtimeOptions := none }

/-- Witness for C10: an options object carrying `cache` and `title` keys is
itself the context of the view render. -/
theorem c10_witness :
    (renderCallCtxs (renderView c6cfg {} {} "/v.handlebars" c10opts).2.2).head?
      = some ("/v.handlebars", c10opts) :=
  c10_options_object_is_context c6cfg {} {} "/v.handlebars" c10opts c10ro {} [] rfl

/-! ## Claim C8 — trimming -/

theorem dropWhile_all_append {α : Type} (p : α → Bool) (w l : List α)
    (h : ∀ c ∈ w, p c = true) :
    (w ++ l).dropWhile p = l.dropWhile p := by
  induction w with
  | nil => rfl
  | cons a rest ih =>
    have ha : p a = true := h a (List.mem_cons_self _ _)
    simp only [List.cons_append, List.dropWhile_cons, ha, if_true]
    exact ih (fun c hc => h c (List.mem_cons_of_mem _ hc))

theorem dropWhile_append_ne_nil {α : Type} (p : α → Bool) (l w : List α) (a : α)
    (t : List α) (h : l.dropWhile p = a :: t) :
    (l ++ w).dropWhile p = a :: (t ++ w) := by
  induction l with
  | nil => simp at h
  | cons b l' ih =>
    by_cases hb : p b = true
    · simp only [List.dropWhile_cons, hb, if_true] at h ⊢
      simp only [List.cons_append]
      simp only [List.dropWhile_cons, hb, if_true]
      exact ih h
    · simp only [List.dropWhile_cons, hb, if_false] at h
      injection h with h1 h2
      subst h1
      subst h2
      simp [List.dropWhile_cons, hb]

theorem trimChars_pad (w₁ w₂ l : List Char)
    (h₁ : ∀ c ∈ w₁, isWSChar c = true) (h₂ : ∀ c ∈ w₂, isWSChar c = true) :
    trimChars (w₁ ++ l ++ w₂) = trimChars l := by
  unfold trimChars
  rw [List.append_assoc, dropWhile_all_append isWSChar w₁ (l ++ w₂) h₁]
  cases hd : l.dropWhile isWSChar with
  | nil =>
    have hall : ∀ c ∈ l, isWSChar c = true := List.dropWhile_eq_nil_iff.mp hd
    rw [dropWhile_all_append isWSChar l w₂ hall, List.dropWhile_eq_nil_iff.mpr h₂]
  | cons a t =>
    have h₂r : ∀ c ∈ w₂.reverse, isWSChar c = true :=
      fun c hc => h₂ c (List.mem_reverse.mp hc)
    rw [dropWhile_append_ne_nil isWSChar l w₂ a t hd, List.reverse_cons,
      List.reverse_cons, List.reverse_append, List.append_assoc,
      dropWhile_all_append isWSChar w₂.reverse (t.reverse ++ [a]) h₂r]

theorem jsTrim_pad (w₁ w₂ : List Char) (c p : String)
    (h₁ : ∀ ch ∈ w₁, isWSChar ch = true) (h₂ : ∀ ch ∈ w₂, isWSChar ch = true)
    (hp : p.data = w₁ ++ c.data ++ w₂) :
    jsTrim p = jsTrim c := by
  simp only [jsTrim, hp, trimChars_pad w₁ w₂ c.data h₁ h₂]

/-! Relational simulation showing that two runs over filesystems whose file
contents agree up to leading/trailing whitespace produce the same render
results: raw content is only ever used after `jsTrim` (by compilation), so
only trim-equivalence of the file caches can be observed. -/

def optRel {α : Type} (r : α → α → Prop) : Option α → Option α → Prop
  | some a, some b => r a b
  | none, none => True
  | _, _ => False

def fsValRel : FsVal → FsVal → Prop
  | .file a, .file b => jsTrim a = jsTrim b
  | .dir a, .dir b => a = b
  | _, _ => False

def cacheRel (m₁ m₂ : List (String × FsVal)) : Prop :=
  ∀ k, optRel fsValRel (lookupA m₁ k) (lookupA m₂ k)

def stRel (s₁ s₂ : HbState) : Prop :=
  cacheRel s₁.fsCache s₂.fsCache ∧ s₁.compiled = s₂.compiled ∧
    s₁.precompiled = s₂.precompiled ∧ s₁.partialsDir = s₂.partialsDir ∧
    s₁.layoutsDir = s₂.layoutsDir

def filesRel (f₁ f₂ : List (String × String)) : Prop :=
  ∀ k, optRel (fun a b => jsTrim a = jsTrim b) (lookupA f₁ k) (lookupA f₂ k)

def envRel (e₁ e₂ : Env) : Prop :=
  e₁.cwd = e₂.cwd ∧ e₁.globs = e₂.globs ∧ e₁.compileOk = e₂.compileOk ∧
    e₁.hbEval = e₂.hbEval ∧ filesRel e₁.files e₂.files

def exceptTrimRel : Except Err String → Except Err String → Prop
  | .ok a, .ok b => jsTrim a = jsTrim b
  | .error x, .error y => x = y
  | _, _ => False

theorem fsValRel_refl (v : FsVal) : fsValRel v v := by
  cases v <;> simp [fsValRel]

theorem cacheRel_refl (m : List (String × FsVal)) : cacheRel m m := by
  intro k
  cases lookupA m k with
  | none => trivial
  | some v => exact fsValRel_refl v

theorem stRel_refl (s : HbState) : stRel s s :=
  ⟨cacheRel_refl s.fsCache, rfl, rfl, rfl, rfl⟩

theorem cacheRel_set (m₁ m₂ : List (String × FsVal)) (k : String) (v₁ v₂ : FsVal)
    (h : cacheRel m₁ m₂) (hv : fsValRel v₁ v₂) :
    cacheRel (listSet m₁ k v₁) (listSet m₂ k v₂) := by
  intro key
  by_cases hk : key = k
  · subst hk
    rw [lookupA_listSet_self, lookupA_listSet_self]
    exact hv
  · rw [lookupA_listSet_ne _ _ _ _ hk, lookupA_listSet_ne _ _ _ _ hk]
    exact h key

theorem cacheRel_erase (m₁ m₂ : List (String × FsVal)) (k : String)
    (h : cacheRel m₁ m₂) :
    cacheRel (listErase m₁ k) (listErase m₂ k) := by
  intro key
  by_cases hk : key = k
  · subst hk
    rw [lookupA_listErase_self, lookupA_listErase_self]
    trivial
  · rw [lookupA_listErase_ne _ _ _ hk, lookupA_listErase_ne _ _ _ hk]
    exact h key

/-- The cache-miss branch of `_getFile`, named for proof reuse. -/
def getFileMiss (env : Env) (st : HbState) (fp : String) :
    Except Err String × HbState × List Ev :=
  match lookupA env.files fp with
  | some content =>
    (.ok content, { st with fsCache := listSet st.fsCache fp (.file content) },
      [.readFile fp])
  | none =>
    (.error (.readError fp), { st with fsCache := listErase st.fsCache fp },
      [.readFile fp])

theorem getFile_rel (e₁ e₂ : Env) (s₁ s₂ : HbState) (p : String) (o : TOpts)
    (he : envRel e₁ e₂) (hs : stRel s₁ s₂) :
    exceptTrimRel (_getFile e₁ s₁ p o).1 (_getFile e₂ s₂ p o).1 ∧
    stRel (_getFile e₁ s₁ p o).2.1 (_getFile e₂ s₂ p o).2.1 ∧
    (_getFile e₁ s₁ p o).2.2 = (_getFile e₂ s₂ p o).2.2 := by
  obtain ⟨hcwd, hglobs, hcomp, heval, hfiles⟩ := he
  obtain ⟨hfc, hcc, hpc, hpd, hld⟩ := hs
  have hlook := hfc (pathResolve e₂.cwd p)
  have hfile := hfiles (pathResolve e₂.cwd p)
  have missgoal :
      exceptTrimRel (getFileMiss e₁ s₁ (pathResolve e₂.cwd p)).1
          (getFileMiss e₂ s₂ (pathResolve e₂.cwd p)).1 ∧
      stRel (getFileMiss e₁ s₁ (pathResolve e₂.cwd p)).2.1
          (getFileMiss e₂ s₂ (pathResolve e₂.cwd p)).2.1 ∧
      (getFileMiss e₁ s₁ (pathResolve e₂.cwd p)).2.2
        = (getFileMiss e₂ s₂ (pathResolve e₂.cwd p)).2.2 := by
    simp only [getFileMiss]
    cases g₁ : lookupA e₁.files (pathResolve e₂.cwd p) <;>
      cases g₂ : lookupA e₂.files (pathResolve e₂.cwd p) <;>
      rw [g₁, g₂] at hfile <;>
      simp only [optRel] at hfile
    · exact ⟨by simp [exceptTrimRel],
        ⟨cacheRel_erase _ _ _ hfc, hcc, hpc, hpd, hld⟩, rfl⟩
    · exact ⟨hfile,
        ⟨cacheRel_set _ _ _ _ _ hfc hfile, hcc, hpc, hpd, hld⟩, rfl⟩
  by_cases hcache : o.cache
  · cases h₁ : lookupA s₁.fsCache (pathResolve e₂.cwd p) <;>
      cases h₂ : lookupA s₂.fsCache (pathResolve e₂.cwd p) <;>
      rw [h₁, h₂] at hlook <;>
      simp only [optRel] at hlook
    · simp only [_getFile, hcwd, hcache, if_true, h₁, h₂]
      exact missgoal
    · rename_i v₁ v₂
      cases v₁ <;> cases v₂ <;> simp only [fsValRel] at hlook
      · simp only [_getFile, hcwd, hcache, if_true, h₁, h₂]
        exact ⟨hlook, ⟨hfc, hcc, hpc, hpd, hld⟩, trivial⟩
      · simp only [_getFile, hcwd, hcache, if_true, h₁, h₂]
        exact missgoal
  · have hcf : o.cache = false := by simpa using hcache
    simp only [_getFile, hcwd, hcf, Bool.false_eq_true, if_false]
    exact missgoal

/-- The cache-miss branch of `_getDir`, named for proof reuse. -/
def getDirMiss (env : Env) (st : HbState) (dp : String) :
    Except Err (List String) × HbState × List Ev :=
  match lookupA env.globs dp with
  | some l =>
    (.ok l, { st with fsCache := listSet st.fsCache dp (.dir l) }, [.globDir dp])
  | none =>
    (.error (.globError dp), { st with fsCache := listErase st.fsCache dp },
      [.globDir dp])

theorem getDir_rel (e₁ e₂ : Env) (s₁ s₂ : HbState) (p : String) (o : TOpts)
    (he : envRel e₁ e₂) (hs : stRel s₁ s₂) :
    (_getDir e₁ s₁ p o).1 = (_getDir e₂ s₂ p o).1 ∧
    stRel (_getDir e₁ s₁ p o).2.1 (_getDir e₂ s₂ p o).2.1 ∧
    (_getDir e₁ s₁ p o).2.2 = (_getDir e₂ s₂ p o).2.2 := by
  obtain ⟨hcwd, hglobs, hcomp, heval, hfiles⟩ := he
  obtain ⟨hfc, hcc, hpc, hpd, hld⟩ := hs
  have hlook := hfc (pathResolve e₂.cwd p)
  have missgoal :
      (getDirMiss e₁ s₁ (pathResolve e₂.cwd p)).1
          = (getDirMiss e₂ s₂ (pathResolve e₂.cwd p)).1 ∧
      stRel (getDirMiss e₁ s₁ (pathResolve e₂.cwd p)).2.1
          (getDirMiss e₂ s₂ (pathResolve e₂.cwd p)).2.1 ∧
      (getDirMiss e₁ s₁ (pathResolve e₂.cwd p)).2.2
        = (getDirMiss e₂ s₂ (pathResolve e₂.cwd p)).2.2 := by
    simp only [getDirMiss, hglobs]
    cases g : lookupA e₂.globs (pathResolve e₂.cwd p)
    · exact ⟨rfl, ⟨cacheRel_erase _ _ _ hfc, hcc, hpc, hpd, hld⟩, rfl⟩
    · exact ⟨rfl,
        ⟨cacheRel_set _ _ _ _ _ hfc (fsValRel_refl _), hcc, hpc, hpd, hld⟩, rfl⟩
  by_cases hcache : o.cache
  · cases h₁ : lookupA s₁.fsCache (pathResolve e₂.cwd p) <;>
      cases h₂ : lookupA s₂.fsCache (pathResolve e₂.cwd p) <;>
      rw [h₁, h₂] at hlook <;>
      simp only [optRel] at hlook
    · simp only [_getDir, hcwd, hcache, if_true, h₁, h₂]
      exact missgoal
    · rename_i v₁ v₂
      cases v₁ <;> cases v₂ <;> simp only [fsValRel] at hlook
      · simp only [_getDir, hcwd, hcache, if_true, h₁, h₂]
        exact missgoal
      · subst hlook
        simp only [_getDir, hcwd, hcache, if_true, h₁, h₂]
        exact ⟨by trivial, ⟨hfc, hcc, hpc, hpd, hld⟩, by trivial⟩
  · have hcf : o.cache = false := by simpa using hcache
    simp only [_getDir, hcwd, hcf, Bool.false_eq_true, if_false]
    exact missgoal

theorem getTemplateMiss_rel (e₁ e₂ : Env) (s₁ s₂ : HbState) (p fp : String)
    (o : TOpts) (he : envRel e₁ e₂) (hs : stRel s₁ s₂) :
    (getTemplateMiss e₁ s₁ p fp o).1 = (getTemplateMiss e₂ s₂ p fp o).1 ∧
    stRel (getTemplateMiss e₁ s₁ p fp o).2.1 (getTemplateMiss e₂ s₂ p fp o).2.1 ∧
    (getTemplateMiss e₁ s₁ p fp o).2.2 = (getTemplateMiss e₂ s₂ p fp o).2.2 := by
  have hf := getFile_rel e₁ e₂ s₁ s₂ p { o with precompiled := false } he hs
  obtain ⟨hcwd, hglobs, hcomp, heval, hfiles⟩ := he
  rcases hg₁ : _getFile e₁ s₁ p { o with precompiled := false } with ⟨r₁, t₁, v₁⟩
  rcases hg₂ : _getFile e₂ s₂ p { o with precompiled := false } with ⟨r₂, t₂, v₂⟩
  rw [hg₁, hg₂] at hf
  obtain ⟨hr, ht, hv⟩ := hf
  have htc : cacheRel t₁.fsCache t₂.fsCache := ht.1
  have htcc : t₁.compiled = t₂.compiled := ht.2.1
  have htpc : t₁.precompiled = t₂.precompiled := ht.2.2.1
  have htpd : t₁.partialsDir = t₂.partialsDir := ht.2.2.2.1
  have htld : t₁.layoutsDir = t₂.layoutsDir := ht.2.2.2.2
  have hvv : v₁ = v₂ := hv
  cases r₁ <;> cases r₂ <;> simp only [exceptTrimRel] at hr
  case error.error x y =>
    subst hr
    simp only [getTemplateMiss, hg₁, hg₂]
    by_cases hp : o.precompiled = true <;>
      simp only [hp, if_true, Bool.false_eq_true, if_false] <;>
      exact ⟨by trivial, ⟨htc, by simp [htcc], by simp [htpc], htpd, htld⟩, hvv⟩
  case ok.ok f₁ f₂ =>
    have hce : (if o.precompiled then _precompileTemplate e₁ f₁
          else _compileTemplate e₁ f₁)
        = (if o.precompiled then _precompileTemplate e₂ f₂
          else _compileTemplate e₂ f₂) := by
      by_cases hp : o.precompiled = true <;>
        simp [hp, _precompileTemplate, _compileTemplate, hcomp, hr]
    cases hc : (if o.precompiled then _precompileTemplate e₂ f₂
        else _compileTemplate e₂ f₂) with
    | ok t =>
      rw [hc] at hce
      simp only [getTemplateMiss, hg₁, hg₂, hce, hc]
      by_cases hp : o.precompiled = true <;>
        simp only [hp, if_true, Bool.false_eq_true, if_false] <;>
        exact ⟨by trivial, ⟨htc, by simp [htcc], by simp [htpc], htpd, htld⟩, hvv⟩
    | error er =>
      rw [hc] at hce
      simp only [getTemplateMiss, hg₁, hg₂, hce, hc]
      by_cases hp : o.precompiled = true <;>
        simp only [hp, if_true, Bool.false_eq_true, if_false] <;>
        exact ⟨by trivial, ⟨htc, by simp [htcc], by simp [htpc], htpd, htld⟩, hvv⟩

theorem getTemplate_rel (e₁ e₂ : Env) (s₁ s₂ : HbState) (p : String) (o : TOpts)
    (he : envRel e₁ e₂) (hs : stRel s₁ s₂) :
    (getTemplate e₁ s₁ p o).1 = (getTemplate e₂ s₂ p o).1 ∧
    stRel (getTemplate e₁ s₁ p o).2.1 (getTemplate e₂ s₂ p o).2.1 ∧
    (getTemplate e₁ s₁ p o).2.2 = (getTemplate e₂ s₂ p o).2.2 := by
  have hmiss := getTemplateMiss_rel e₁ e₂ s₁ s₂ p (pathResolve e₂.cwd p) o he hs
  obtain ⟨hcwd, hglobs, hcomp, heval, hfiles⟩ := he
  obtain ⟨hfc, hcc, hpc, hpd, hld⟩ := hs
  by_cases hcache : o.cache
  · have hsame : (if o.precompiled then s₁.precompiled else s₁.compiled)
        = (if o.precompiled then s₂.precompiled else s₂.compiled) := by
      by_cases hp : o.precompiled = true <;> simp [hp, hcc, hpc]
    cases hhit : lookupA (if o.precompiled then s₂.precompiled else s₂.compiled)
        (pathResolve e₂.cwd p) with
    | some t =>
      simp only [getTemplate, hcwd, hcache, if_true, hsame, hhit]
      exact ⟨by trivial, ⟨hfc, hcc, hpc, hpd, hld⟩, by trivial⟩
    | none =>
      simp only [getTemplate, hcwd, hcache, if_true, hsame, hhit]
      exact hmiss
  · have hcf : o.cache = false := by simpa using hcache
    simp only [getTemplate, hcwd, hcf, Bool.false_eq_true, if_false]
    exact hmiss

theorem getEachTemplate_rel (e₁ e₂ : Env) (dirPath : String) (fs : List String)
    (o : TOpts) (he : envRel e₁ e₂) :
    ∀ s₁ s₂, stRel s₁ s₂ →
      (getEachTemplate e₁ s₁ dirPath fs o).1
          = (getEachTemplate e₂ s₂ dirPath fs o).1 ∧
      stRel (getEachTemplate e₁ s₁ dirPath fs o).2.1
          (getEachTemplate e₂ s₂ dirPath fs o).2.1 ∧
      (getEachTemplate e₁ s₁ dirPath fs o).2.2
        = (getEachTemplate e₂ s₂ dirPath fs o).2.2 := by
  induction fs with
  | nil => exact fun s₁ s₂ hs => ⟨rfl, hs, rfl⟩
  | cons f rest ih =>
    intro s₁ s₂ hs
    have hg := getTemplate_rel e₁ e₂ s₁ s₂ (pathJoin dirPath f) o he hs
    rcases h₁ : getTemplate e₁ s₁ (pathJoin dirPath f) o with ⟨r₁, t₁, v₁⟩
    rcases h₂ : getTemplate e₂ s₂ (pathJoin dirPath f) o with ⟨r₂, t₂, v₂⟩
    rw [h₁, h₂] at hg
    have hr : r₁ = r₂ := hg.1
    have htt : stRel t₁ t₂ := hg.2.1
    have hvv : v₁ = v₂ := hg.2.2
    have hrec := ih t₁ t₂ htt
    rcases hh₁ : getEachTemplate e₁ t₁ dirPath rest o with ⟨rr₁, u₁, w₁⟩
    rcases hh₂ : getEachTemplate e₂ t₂ dirPath rest o with ⟨rr₂, u₂, w₂⟩
    rw [hh₁, hh₂] at hrec
    have hrr : rr₁ = rr₂ := hrec.1
    have huu : stRel u₁ u₂ := hrec.2.1
    have hww : w₁ = w₂ := hrec.2.2
    subst hr
    subst hvv
    subst hrr
    subst hww
    simp only [getEachTemplate, h₁, h₂, hh₁, hh₂]
    cases r₁ <;> cases rr₁ <;> exact ⟨by trivial, huu, by trivial⟩

theorem getTemplates_rel (e₁ e₂ : Env) (s₁ s₂ : HbState) (dirPath : String)
    (o : TOpts) (he : envRel e₁ e₂) (hs : stRel s₁ s₂) :
    (getTemplates e₁ s₁ dirPath o).1 = (getTemplates e₂ s₂ dirPath o).1 ∧
    stRel (getTemplates e₁ s₁ dirPath o).2.1 (getTemplates e₂ s₂ dirPath o).2.1 ∧
    (getTemplates e₁ s₁ dirPath o).2.2 = (getTemplates e₂ s₂ dirPath o).2.2 := by
  have hd := getDir_rel e₁ e₂ s₁ s₂ dirPath o he hs
  rcases h₁ : _getDir e₁ s₁ dirPath o with ⟨r₁, t₁, v₁⟩
  rcases h₂ : _getDir e₂ s₂ dirPath o with ⟨r₂, t₂, v₂⟩
  rw [h₁, h₂] at hd
  have hr : r₁ = r₂ := hd.1
  have htt : stRel t₁ t₂ := hd.2.1
  have hvv : v₁ = v₂ := hd.2.2
  subst hr
  subst hvv
  cases r₁ with
  | error e => simp only [getTemplates, h₁, h₂]; exact ⟨by trivial, htt, by trivial⟩
  | ok fls =>
    have hrec := getEachTemplate_rel e₁ e₂ dirPath fls o he t₁ t₂ htt
    rcases hh₁ : getEachTemplate e₁ t₁ dirPath fls o with ⟨rr₁, u₁, w₁⟩
    rcases hh₂ : getEachTemplate e₂ t₂ dirPath fls o with ⟨rr₂, u₂, w₂⟩
    rw [hh₁, hh₂] at hrec
    have hrr : rr₁ = rr₂ := hrec.1
    have huu : stRel u₁ u₂ := hrec.2.1
    have hww : w₁ = w₂ := hrec.2.2
    subst hrr
    subst hww
    simp only [getTemplates, h₁, h₂, hh₁, hh₂]
    exact ⟨by trivial, huu, by trivial⟩

theorem processOneDir_rel (e₁ e₂ : Env) (s₁ s₂ : HbState) (d : PartialsDirVal)
    (o : TOpts) (he : envRel e₁ e₂) (hs : stRel s₁ s₂) :
    (processOneDir e₁ s₁ d o).1 = (processOneDir e₂ s₂ d o).1 ∧
    stRel (processOneDir e₁ s₁ d o).2.1 (processOneDir e₂ s₂ d o).2.1 ∧
    (processOneDir e₁ s₁ d o).2.2 = (processOneDir e₂ s₂ d o).2.2 := by
  cases d with
  | str s =>
    by_cases h : s = ""
    · simp only [processOneDir, h, if_true]
      exact ⟨by trivial, hs, by trivial⟩
    · have hg := getTemplates_rel e₁ e₂ s₁ s₂ s o he hs
      rcases h₁ : getTemplates e₁ s₁ s o with ⟨r₁, t₁, v₁⟩
      rcases h₂ : getTemplates e₂ s₂ s o with ⟨r₂, t₂, v₂⟩
      rw [h₁, h₂] at hg
      have hr : r₁ = r₂ := hg.1
      have htt : stRel t₁ t₂ := hg.2.1
      have hvv : v₁ = v₂ := hg.2.2
      subst hr
      subst hvv
      cases r₁ <;> simp only [processOneDir, h, if_neg, h₁, h₂] <;>
        exact ⟨by trivial, htt, by trivial⟩
  | conf dir tms nsp ren =>
    by_cases h : ((dir.getD "") = "" && tms.isNone) = true
    · simp only [processOneDir, h, if_true]
      exact ⟨by trivial, hs, by trivial⟩
    · cases tms with
      | some t =>
        simp only [processOneDir, h, if_neg]
        exact ⟨by trivial, hs, by trivial⟩
      | none =>
        have hg := getTemplates_rel e₁ e₂ s₁ s₂ (dir.getD "") o he hs
        rcases h₁ : getTemplates e₁ s₁ (dir.getD "") o with ⟨r₁, t₁, v₁⟩
        rcases h₂ : getTemplates e₂ s₂ (dir.getD "") o with ⟨r₂, t₂, v₂⟩
        rw [h₁, h₂] at hg
        have hr : r₁ = r₂ := hg.1
        have htt : stRel t₁ t₂ := hg.2.1
        have hvv : v₁ = v₂ := hg.2.2
        subst hr
        subst hvv
        cases r₁ <;> simp only [processOneDir, h, if_neg, h₁, h₂] <;>
          exact ⟨by trivial, htt, by trivial⟩

theorem processDirs_rel (e₁ e₂ : Env) (ds : List PartialsDirVal) (o : TOpts)
    (he : envRel e₁ e₂) :
    ∀ s₁ s₂, stRel s₁ s₂ →
      (processDirs e₁ s₁ ds o).1 = (processDirs e₂ s₂ ds o).1 ∧
      stRel (processDirs e₁ s₁ ds o).2.1 (processDirs e₂ s₂ ds o).2.1 ∧
      (processDirs e₁ s₁ ds o).2.2 = (processDirs e₂ s₂ ds o).2.2 := by
  induction ds with
  | nil => exact fun s₁ s₂ hs => ⟨rfl, hs, rfl⟩
  | cons d rest ih =>
    intro s₁ s₂ hs
    have ho := processOneDir_rel e₁ e₂ s₁ s₂ d o he hs
    rcases h₁ : processOneDir e₁ s₁ d o with ⟨r₁, t₁, v₁⟩
    rcases h₂ : processOneDir e₂ s₂ d o with ⟨r₂, t₂, v₂⟩
    rw [h₁, h₂] at ho
    have hr : r₁ = r₂ := ho.1
    have htt : stRel t₁ t₂ := ho.2.1
    have hvv : v₁ = v₂ := ho.2.2
    have hrec := ih t₁ t₂ htt
    rcases hh₁ : processDirs e₁ t₁ rest o with ⟨rr₁, u₁, w₁⟩
    rcases hh₂ : processDirs e₂ t₂ rest o with ⟨rr₂, u₂, w₂⟩
    rw [hh₁, hh₂] at hrec
    have hrr : rr₁ = rr₂ := hrec.1
    have huu : stRel u₁ u₂ := hrec.2.1
    have hww : w₁ = w₂ := hrec.2.2
    subst hr
    subst hvv
    subst hrr
    subst hww
    simp only [processDirs, h₁, h₂, hh₁, hh₂]
    exact ⟨by trivial, huu, by trivial⟩

theorem getPartials_rel (cfg : Config) (e₁ e₂ : Env) (s₁ s₂ : HbState)
    (o : TOpts) (he : envRel e₁ e₂) (hs : stRel s₁ s₂) :
    (getPartials cfg e₁ s₁ o).1 = (getPartials cfg e₂ s₂ o).1 ∧
    stRel (getPartials cfg e₁ s₁ o).2.1 (getPartials cfg e₂ s₂ o).2.1 ∧
    (getPartials cfg e₁ s₁ o).2.2 = (getPartials cfg e₂ s₂ o).2.2 := by
  have hpd : s₁.partialsDir = s₂.partialsDir := hs.2.2.2.1
  cases hp : s₂.partialsDir with
  | none =>
    rw [hp] at hpd
    simp only [getPartials, hpd, hp]
    exact ⟨by trivial, hs, by trivial⟩
  | some setting =>
    rw [hp] at hpd
    have hds := processDirs_rel e₁ e₂ (settingDirs setting) o he s₁ s₂ hs
    rcases h₁ : processDirs e₁ s₁ (settingDirs setting) o with ⟨r₁, t₁, v₁⟩
    rcases h₂ : processDirs e₂ s₂ (settingDirs setting) o with ⟨r₂, t₂, v₂⟩
    rw [h₁, h₂] at hds
    have hr : r₁ = r₂ := hds.1
    have htt : stRel t₁ t₂ := hds.2.1
    have hvv : v₁ = v₂ := hds.2.2
    subst hr
    subst hvv
    simp only [getPartials, hpd, hp, h₁, h₂]
    by_cases hb : r₁.any isBadDir = true <;>
      simp only [hb, if_true, Bool.false_eq_true, if_false]
    · exact ⟨by trivial, htt, by trivial⟩
    · cases hff : r₁.findSome? dirFailure <;> exact ⟨by trivial, htt, by trivial⟩

theorem render_rel (cfg : Config) (e₁ e₂ : Env) (s₁ s₂ : HbState) (fp : String)
    (ctx : Obj) (o : RenderOpts) (he : envRel e₁ e₂) (hs : stRel s₁ s₂) :
    (render cfg e₁ s₁ fp ctx o).1 = (render cfg e₂ s₂ fp ctx o).1 ∧
    stRel (render cfg e₁ s₁ fp ctx o).2.1 (render cfg e₂ s₂ fp ctx o).2.1 ∧
    (render cfg e₁ s₁ fp ctx o).2.2 = (render cfg e₂ s₂ fp ctx o).2.2 := by
  have heval : e₁.hbEval = e₂.hbEval := he.2.2.2.1
  have hgt := getTemplate_rel e₁ e₂ s₁ s₂ fp
    ⟨o.cache, false, some (effEncoding o.encoding cfg.encoding)⟩ he hs
  rcases h₁ : getTemplate e₁ s₁ fp
      ⟨o.cache, false, some (effEncoding o.encoding cfg.encoding)⟩ with ⟨r₁, t₁, v₁⟩
  rcases h₂ : getTemplate e₂ s₂ fp
      ⟨o.cache, false, some (effEncoding o.encoding cfg.encoding)⟩ with ⟨r₂, t₂, v₂⟩
  rw [h₁, h₂] at hgt
  have hr : r₁ = r₂ := hgt.1
  have htt : stRel t₁ t₂ := hgt.2.1
  have hvv : v₁ = v₂ := hgt.2.2
  subst hr
  subst hvv
  cases r₁ with
  | error e =>
    simp only [render, h₁, h₂]
    exact ⟨by trivial, htt, by trivial⟩
  | ok tmpl =>
    cases hop : o.partials with
    | some ps =>
      simp only [render, h₁, h₂, hop, _renderTemplate, heval]
      exact ⟨by trivial, htt, by trivial⟩
    | none =>
      have hgp := getPartials_rel cfg e₁ e₂ t₁ t₂
        ⟨o.cache, false, some (effEncoding o.encoding cfg.encoding)⟩ he htt
      rcases hh₁ : getPartials cfg e₁ t₁
          ⟨o.cache, false, some (effEncoding o.encoding cfg.encoding)⟩
        with ⟨rr₁, u₁, w₁⟩
      rcases hh₂ : getPartials cfg e₂ t₂
          ⟨o.cache, false, some (effEncoding o.encoding cfg.encoding)⟩
        with ⟨rr₂, u₂, w₂⟩
      rw [hh₁, hh₂] at hgp
      have hrr : rr₁ = rr₂ := hgp.1
      have huu : stRel u₁ u₂ := hgp.2.1
      have hww : w₁ = w₂ := hgp.2.2
      subst hrr
      subst hww
      cases rr₁ <;>
        simp only [render, h₁, h₂, hop, hh₁, hh₂, _renderTemplate, heval] <;>
        exact ⟨by trivial, huu, by trivial⟩

/-- Claim C8: `render` trims.  (1) With caching off, supplied partials, a
readable file and a compiling template, the result is exactly the trimmed
invocation of the artifact compiled from the TRIMMED file content;
(2) every successful `render` output is the trimmed result of invoking
some compiled artifact on the context (leading/trailing whitespace
removed); (3) replacing the content of a file by the same content surrounded
by extra leading/trailing whitespace never changes any `render` result. -/
theorem c8_render_trims :
    (∀ (cfg : Config) (env : Env) (st : HbState) (fp : String) (ctx : Obj)
        (o : RenderOpts) (content : String) (P : List (String × String)),
      o.cache = false → o.partials = some P →
      lookupA env.files (pathResolve env.cwd fp) = some content →
      env.compileOk (jsTrim content) = true →
      (render cfg env st fp ctx o).1
        = .ok (jsTrim (env.hbEval (jsTrim content) ctx))) ∧
    (∀ (cfg : Config) (env : Env) (st : HbState) (fp : String) (ctx : Obj)
        (o : RenderOpts) (h : String),
      (render cfg env st fp ctx o).1 = .ok h →
        ∃ t, h = jsTrim (env.hbEval t ctx)) ∧
    (∀ (cfg : Config) (env : Env) (st : HbState) (fp fpx : String) (ctx : Obj)
        (o : RenderOpts) (c p : String) (w₁ w₂ : List Char),
      (∀ ch ∈ w₁, isWSChar ch = true) → (∀ ch ∈ w₂, isWSChar ch = true) →
      p.data = w₁ ++ c.data ++ w₂ →
      (render cfg { env with files := listSet env.files fpx c } st fp ctx o).1
        = (render cfg { env with files := listSet env.files fpx p } st fp ctx o).1) := by
  refine ⟨?_, ?_, ?_⟩
  · intro cfg env st fp ctx o content P hcache hP hfile hcomp
    simp only [render, getTemplate, getTemplateMiss, _getFile, hcache,
      Bool.false_eq_true, if_false, hfile, _compileTemplate, hcomp, if_true, hP,
      _renderTemplate]
  · intro cfg env st fp ctx o h hok
    rcases hgt : getTemplate env st fp
        ⟨o.cache, false, some (effEncoding o.encoding cfg.encoding)⟩
      with ⟨r, st₁, evs₁⟩
    cases r with
    | error e => simp [render, hgt] at hok
    | ok tmpl =>
      cases hop : o.partials with
      | some ps =>
        refine ⟨tmpl, ?_⟩
        simp only [render, hgt, hop, _renderTemplate] at hok
        injection hok with hh
        exact hh.symm
      | none =>
        rcases hgp : getPartials cfg env st₁
            ⟨o.cache, false, some (effEncoding o.encoding cfg.encoding)⟩
          with ⟨pr, st₂, evs₂⟩
        cases pr with
        | error e => simp [render, hgt, hop, hgp] at hok
        | ok bp =>
          refine ⟨tmpl, ?_⟩
          simp only [render, hgt, hop, hgp, _renderTemplate] at hok
          injection hok with hh
          exact hh.symm
  · intro cfg env st fp fpx ctx o c p w₁ w₂ h₁ h₂ hp
    have htrim : jsTrim c = jsTrim p := (jsTrim_pad w₁ w₂ c p h₁ h₂ hp).symm
    have her : envRel { env with files := listSet env.files fpx c }
        { env with files := listSet env.files fpx p } := by
      refine ⟨rfl, rfl, rfl, rfl, ?_⟩
      intro k
      by_cases hk : k = fpx
      · subst hk
        simp only [lookupA_listSet_self]
        exact htrim
      · simp only [lookupA_listSet_ne _ _ _ _ hk]
        cases lookupA env.files k with
        | none => trivial
        | some s => exact rfl
    exact (render_rel cfg _ _ st st fp ctx o her (stRel_refl st)).1

def c8tmpl : String := "<h1>\x7b\x7btitle\x7d\x7d</h1>"

def c8eval : String → Obj → String := fun t ctx =>
  if t = c8tmpl then
    "<h1>" ++ (match objGet ctx "title" with | some (.str s) => s | _ => "")
      ++ "</h1>"
  else ""

def c8padded : String := "\n\n<h1>\x7b\x7btitle\x7d\x7d</h1> \n"

def c8envC : Env := { files := [("/t.handlebars", c8tmpl)], hbEval := c8eval }

def c8envP : Env := { files := [("/t.handlebars", c8padded)], hbEval := c8eval }

/-- Witness for C8: rendering `<h1>{{title}}</h1>` with `{title: "Hi"}`
yields exactly `<h1>Hi</h1>` even when the stored source carries
surrounding blank lines, and the padded and clean sources render alike. -/
theorem c8_witness :
    ((render {} c8envP {} "/t.handlebars" [("title", .str "Hi")]
        { partials := some [] }).1 = .ok "<h1>Hi</h1>") ∧
    ((render {} { hbEval := c8eval, files := listSet [] "/t.handlebars" c8tmpl } {}
        "/t.handlebars" [("title", .str "Hi")] { partials := some [] }).1
      = (render {} { hbEval := c8eval, files := listSet [] "/t.handlebars" c8padded }
        {} "/t.handlebars" [("title", .str "Hi")] { partials := some [] }).1) := by
  constructor
  · have h := c8_render_trims.1 {} c8envP {} "/t.handlebars"
      [("title", .str "Hi")] { partials := some [] } c8padded [] rfl rfl
      (by decide) rfl
    rw [h]
    rfl
  · exact c8_render_trims.2.2 {} { hbEval := c8eval } {} "/t.handlebars"
      "/t.handlebars" [("title", .str "Hi")] { partials := some [] }
      c8tmpl c8padded ['\n', '\n'] [' ', '\n']
      (by decide) (by decide) (by decide)

end NH
